import Mathlib

/-!
# MDFourier: the windowing subsystem (`windows.c`)

A shallow embedding of `windows.c` and theorems about it.

Conventions of the embedding.

* C `double` values are elements of a type `α` carrying the operations the code
  uses (`DoubleOps α`).  Every definition is parametric in that arithmetic, so it
  can be run on machine floats (`floatOps`) and reasoned about for every
  arithmetic at once.  Statements about numeric values are made for the exact
  real-number reading of the operations (`DoubleOps.IsReal`).  Where the machine
  arithmetic departs from that reading, the departure is shown on a reading that
  keeps the machine feature in question: the `double` value of `M_PI`
  (`DoubleOps.IsExactWithMachinePi`), overflow and the special values of IEEE 754
  (`DoubleOps.IsIEEE`).
* C `int` / `long int` values are unbounded integers: lengths and counters are
  assumed to fit the machine types (`flattopWindow` counts in `int`).  Division
  and remainder of integers are the truncating ones (`Int.tdiv`, `Int.tmod`).
* A pointer to a coefficient buffer is `Option (List α)`: `none` is `NULL`.
  `calloc` succeeds or fails as told by a boolean `mem`.
* A `windowManager *` argument is a valid pointer and is represented by the
  manager value; functions that update it return the new value.  Log messages
  are not modelled.
* `FramesToSeconds` lives in `freq.c`, which is not available: the cache
  functions take it as a parameter `fts`.
-/

namespace MDFourier

/-! ## Arithmetic on `double` -/

/-- The operations on C `double` values used by `windows.c`. -/
structure DoubleOps (α : Type) where
  /-- Conversion of an `int` / `long int` to `double`. -/
  ofInt : Int → α
  /-- The decimal literal `m * 10^(-e)`, e.g. `0.65` is `lit 65 2`. -/
  lit : Nat → Nat → α
  /-- The constant `M_PI`. -/
  pi : α
  add : α → α → α
  sub : α → α → α
  mul : α → α → α
  div : α → α → α
  cos : α → α
  acos : α → α
  cosh : α → α
  acosh : α → α
  pow : α → α → α
  fabs : α → α
  /-- The comparison `x >= y`. -/
  ge : α → α → Bool
  /-- The comparison `x > y`. -/
  gt : α → α → Bool
  /-- The comparison `x <= y`. -/
  le : α → α → Bool
  /-- The value of `floor(x)` assigned to a `long int`. -/
  floor : α → Int
  /-- Conversion of a `double` to `float` (a `float` is kept as the `double` of the
  same value). -/
  toFloat : α → α
  /-- The `float` division `x / y` of two `float` values. -/
  divf : α → α → α

/-- The `double` nearest to `x` among those that are `float` values: round to
nearest, ties to even, on a 24-bit significand with the exponent range of
`float` (subnormal below `2^-126`, infinite from `2^128`). -/
def roundToFloat (x : Float) : Float :=
  if x == 0 || x.isNaN || x.isInf then x
  else
    let q := max (x.frExp.2 - 24) (-149)
    let t := Float.scaleB x.abs (-q)
    let f := t.floor
    let d := t - f
    let r := if d > 0.5 then f + 1 else if d < 0.5 then f
      else if (f / 2).floor * 2 == f then f else f + 1
    let y := Float.scaleB r q
    let y := if y ≥ 340282366920938463463374607431768211456.0 then 1.0 / 0.0 else y
    if x < 0 then -y else y

/-- Machine floats as an arithmetic: the embedding is executable. -/
def floatOps : DoubleOps Float where
  ofInt := Float.ofInt
  lit := fun m e => Float.ofScientific m true e
  pi := 3.14159265358979323846
  add := fun x y => x + y
  sub := fun x y => x - y
  mul := fun x y => x * y
  div := fun x y => x / y
  cos := Float.cos
  acos := Float.acos
  cosh := Float.cosh
  acosh := Float.acosh
  pow := Float.pow
  fabs := Float.abs
  ge := fun x y => x ≥ y
  gt := fun x y => x > y
  le := fun x y => x ≤ y
  floor := fun x =>
    let y := Float.floor x
    if y < 0 then -((-y).toUInt64.toNat : Int) else (y.toUInt64.toNat : Int)
  toFloat := roundToFloat
  divf := fun x y => roundToFloat (x / y)

/-- The exact reading of the arithmetic: the carrier is `ℝ` and every operation
is the real-number operation of the same name.  (Real division by zero is not
the IEEE one; statements made under `IsReal` concern inputs on which the code
does not divide by zero.) -/
structure DoubleOps.IsReal (A : DoubleOps ℝ) : Prop where
  ofInt : ∀ z, A.ofInt z = (z : ℝ)
  lit : ∀ m e, A.lit m e = (m : ℝ) / 10 ^ e
  pi : A.pi = Real.pi
  add : ∀ x y, A.add x y = x + y
  sub : ∀ x y, A.sub x y = x - y
  mul : ∀ x y, A.mul x y = x * y
  div : ∀ x y, A.div x y = x / y
  cos : ∀ x, A.cos x = Real.cos x
  fabs : ∀ x, A.fabs x = |x|
  ge : ∀ x y, A.ge x y = true ↔ y ≤ x
  gt : ∀ x y, A.gt x y = true ↔ y < x
  le : ∀ x y, A.le x y = true ↔ x ≤ y
  floor : ∀ x, A.floor x = ⌊x⌋

/-! ## Buffers and loops -/

/-- A coefficient buffer `double *w`.  `stores` is a ghost log of the indices the
generator loops assigned to, oldest first. -/
structure Buffer (α : Type) where
  cells : List α
  stores : List Int

/-- The assignment `w[i] = v`. -/
def Buffer.store (w : Buffer α) (i : Int) (v : α) : Buffer α :=
  { cells := if 0 ≤ i then w.cells.set i.toNat v else w.cells
    stores := w.stores ++ [i] }

/-- The read `w[i]`; `dflt` stands for the value of a read outside the buffer. -/
def Buffer.load (w : Buffer α) (i : Int) (dflt : α) : α :=
  if 0 ≤ i then w.cells.getD i.toNat dflt else dflt

/-- `calloc(n, sizeof(double))` followed by `memset(w, 0, ...)`: a buffer of `n`
zeros with an empty store log, or `NULL` when memory is refused (it always is for
a negative `n`, which `calloc` receives as an oversized `size_t`). -/
def calloc (A : DoubleOps α) (mem : Bool) (n : Int) : Option (Buffer α) :=
  if mem = true ∧ 0 ≤ n then some { cells := List.replicate n.toNat (A.ofInt 0), stores := [] }
  else none

/-- The loop `for (i = lo; i < hi; i++) s = body(i, s)`. -/
def forLoop (lo hi : Int) (body : Int → σ → σ) (s : σ) : σ :=
  (List.range (hi - lo).toNat).foldl (fun s k => body (lo + (k : Int)) s) s

/-- The mirroring loop shared by the flat-top, Hann and Hamming generators:
`for (i = half; i < n; i++) { w[i] = w[idx]; idx--; }`. -/
def mirrorLoop (A : DoubleOps α) (half n idx : Int) (w : Buffer α) : Buffer α :=
  (forLoop half n
    (fun i (s : Buffer α × Int) => (s.1.store i (s.1.load s.2 (A.ofInt 0)), s.2 - 1))
    (w, idx)).1

/-! ## Window generators -/

/-- The flat-top coefficient computed in the first loop of `flattopWindow` at `i`. -/
def flattopCoef (A : DoubleOps α) (n i : Int) : α :=
  let factor := A.div (A.mul (A.mul (A.ofInt 2) A.pi) (A.ofInt i)) (A.ofInt (n - 1))
  A.add
    (A.sub
      (A.add
        (A.sub (A.lit 21557895 8) (A.mul (A.lit 41663158 8) (A.cos factor)))
        (A.mul (A.lit 277263158 9) (A.cos (A.mul (A.ofInt 2) factor))))
      (A.mul (A.lit 83578947 9) (A.cos (A.mul (A.ofInt 3) factor))))
    (A.mul (A.lit 6947368 9) (A.cos (A.mul (A.ofInt 4) factor)))

/-- The Hann coefficient `0.5 * (1 - cos(2*M_PI*(i+1) / (n+1)))`. -/
def hannCoef (A : DoubleOps α) (n i : Int) : α :=
  A.mul (A.lit 5 1)
    (A.sub (A.ofInt 1)
      (A.cos (A.div (A.mul (A.mul (A.ofInt 2) A.pi) (A.ofInt (i + 1))) (A.ofInt (n + 1)))))

/-- The Hamming coefficient `0.54 - 0.46*cos((2*M_PI*i)/(n-1))`. -/
def hammingCoef (A : DoubleOps α) (n i : Int) : α :=
  A.sub (A.lit 54 2)
    (A.mul (A.lit 46 2)
      (A.cos (A.div (A.mul (A.mul (A.ofInt 2) A.pi) (A.ofInt i)) (A.ofInt (n - 1)))))

/-- The two branches shared by `flattopWindow`, `hannWindow` and `hammingWindow`:
fill the first half with `coef`, then mirror it. -/
def halfAndMirror (A : DoubleOps α) (coef : Int → α) (n : Int) (w : Buffer α) : Buffer α :=
  if n.tmod 2 = 0 then
    let half := n.tdiv 2
    let w := forLoop 0 half (fun i w => w.store i (coef i)) w
    mirrorLoop A half n (half - 1) w
  else
    let half := (n + 1).tdiv 2
    let w := forLoop 0 half (fun i w => w.store i (coef i)) w
    mirrorLoop A half n (half - 2) w

/-- The buffer (with its store log) built by `flattopWindow`. -/
def flattopBuffer (A : DoubleOps α) (mem : Bool) (n : Int) : Option (Buffer α) :=
  (calloc A mem n).map (halfAndMirror A (flattopCoef A n) n)

/-- The buffer (with its store log) built by `hannWindow`. -/
def hannBuffer (A : DoubleOps α) (mem : Bool) (n : Int) : Option (Buffer α) :=
  (calloc A mem n).map (halfAndMirror A (hannCoef A n) n)

/-- The buffer (with its store log) built by `hammingWindow`. -/
def hammingBuffer (A : DoubleOps α) (mem : Bool) (n : Int) : Option (Buffer α) :=
  (calloc A mem n).map (halfAndMirror A (hammingCoef A n) n)

/-- `double *flattopWindow(long int n)`. -/
def flattopWindow (A : DoubleOps α) (mem : Bool) (n : Int) : Option (List α) :=
  (flattopBuffer A mem n).map Buffer.cells

/-- `double *hannWindow(long int n)`. -/
def hannWindow (A : DoubleOps α) (mem : Bool) (n : Int) : Option (List α) :=
  (hannBuffer A mem n).map Buffer.cells

/-- `double *hammingWindow(long int n)`. -/
def hammingWindow (A : DoubleOps α) (mem : Bool) (n : Int) : Option (List α) :=
  (hammingBuffer A mem n).map Buffer.cells

/-- The body of the loop of `tukeyWindow` at index `i`, with `M` and `alpha` as
computed before the loop. -/
def tukeyCoef (A : DoubleOps α) (M alpha : α) (i : Int) : α :=
  if A.ge (A.fabs (A.sub (A.ofInt i) M)) (A.mul alpha M) = true then
    A.mul (A.lit 5 1)
      (A.add (A.ofInt 1)
        (A.cos
          (A.div (A.mul A.pi (A.sub (A.fabs (A.sub (A.ofInt i) M)) (A.mul alpha M)))
            (A.mul (A.sub (A.ofInt 1) alpha) M))))
  else A.ofInt 1

/-- The buffer (with its store log) built by `tukeyWindow`.  `M = (n-1)/2` is a
`long int` division whose quotient is then converted to `double`. -/
def tukeyBuffer (A : DoubleOps α) (mem : Bool) (n : Int) : Option (Buffer α) :=
  (calloc A mem n).map fun w =>
    let alpha := A.lit 65 2
    let M := A.ofInt ((n - 1).tdiv 2)
    forLoop 0 n (fun i w => w.store i (tukeyCoef A M alpha i)) w

/-- `double *tukeyWindow(long int n)`. -/
def tukeyWindow (A : DoubleOps α) (mem : Bool) (n : Int) : Option (List α) :=
  (tukeyBuffer A mem n).map Buffer.cells

/-! ## The window cache -/

/-- The capacity constant `MAX_WINDOWS`. -/
def MAX_WINDOWS : Int := 100

/-- One slot of `windowArray` (the type is declared in `windows.h`; the fields are
those `windows.c` accesses).  `frames` is the field that
`CalculateCorrectionFactor` compares against; `CreateWindow` does not assign it. -/
structure windowUnit (α : Type) where
  window : Option (List α)
  seconds : α
  size : Int
  frames : Int

/-- The run-scoped cache state `windowManager` (declared in `windows.h`; the
fields are those `windows.c` accesses).  `windowArray` is `none` for a `NULL`
pointer, else the `MAX_WINDOWS` allocated slots. -/
structure windowManager (α : Type) where
  windowArray : Option (List (windowUnit α))
  windowCount : Int
  MaxWindow : Int
  SamplesPerSec : Int
  winType : Char

/-- A slot as left by `memset(..., 0, ...)`. -/
def zeroUnit (A : DoubleOps α) : windowUnit α :=
  { window := none, seconds := A.ofInt 0, size := 0, frames := 0 }

/-- The stored entries `windowArray[0 .. windowCount)`. -/
def windowManager.entries (wm : windowManager α) : List (windowUnit α) :=
  (wm.windowArray.getD []).take wm.windowCount.toNat

/-- `int initWindows(windowManager *wm, int SamplesPerSec, char winType, parameters *config)`
with non-null `wm` and `config`; `mem` tells whether `malloc` succeeds.  Returns
the status and the manager as left by the call. -/
def initWindows (A : DoubleOps α) (mem : Bool) (wm : windowManager α) (SamplesPerSec : Int)
    (winType : Char) : Int × windowManager α :=
  let wm := { wm with MaxWindow := 0, SamplesPerSec := 0, winType := 'n' }
  if winType = 'n' then
    (1, { wm with windowArray := none, windowCount := 0 })
  else if mem = false then
    (0, { wm with windowArray := none })
  else
    (1, { windowArray := some (List.replicate MAX_WINDOWS.toNat (zeroUnit A))
          windowCount := 0
          MaxWindow := MAX_WINDOWS - 1
          SamplesPerSec := SamplesPerSec
          winType := winType })

/-- Modelled from the spec: `FramesToSeconds` (defined in `freq.c`, of which only
the declaration in `freq.h` is available); the spec gives
`seconds = frames / frameRate`. -/
def FramesToSeconds (A : DoubleOps α) (frames framerate : α) : α :=
  A.div frames framerate

/-- The sample count `floor(wm->SamplesPerSec * seconds)` of a request, as computed
by both `getWindowByLength` and `CreateWindow`; `fts` is `FramesToSeconds`. -/
def sampleCount (A : DoubleOps α) (fts : α → α → α) (SamplesPerSec : Int) (frames : Int)
    (framerate : α) : Int :=
  A.floor (A.mul (A.ofInt SamplesPerSec) (fts (A.ofInt frames) framerate))

/-- The four assignments that record a new window in slot `windowCount`:
`window`, `seconds` and `size` are written, then `windowCount++`. -/
def windowManager.record (wm : windowManager α) (window : List α) (seconds : α) (size : Int) :
    windowManager α :=
  { wm with
    windowArray := wm.windowArray.map fun arr =>
      if 0 ≤ wm.windowCount then
        arr.modify (fun u => { u with window := some window, seconds := seconds, size := size })
          wm.windowCount.toNat
      else arr
    windowCount := wm.windowCount + 1 }

/-- The tail shared by the four family branches of `CreateWindow`: fail when the
generator returned `NULL`, else record the window and return it. -/
def createWith (wm : windowManager α) (window : Option (List α)) (seconds : α) (size : Int) :
    Option (List α) × windowManager α :=
  match window with
  | none => (none, wm)
  | some w => (some w, wm.record w seconds size)

/-- `double *CreateWindow(windowManager *wm, long int frames, double framerate)`.
Returns the window (or `NULL`) and the manager as left by the call. -/
def CreateWindow (A : DoubleOps α) (fts : α → α → α) (mem : Bool) (wm : windowManager α)
    (frames : Int) (framerate : α) : Option (List α) × windowManager α :=
  if wm.winType = 'n' then (none, wm)
  else if wm.windowCount = wm.MaxWindow then (none, wm)
  else
    let seconds := fts (A.ofInt frames) framerate
    let size := A.floor (A.mul (A.ofInt wm.SamplesPerSec) seconds)
    if size = 0 then (none, wm)
    else if wm.winType = 't' then createWith wm (tukeyWindow A mem size) seconds size
    else if wm.winType = 'f' then createWith wm (flattopWindow A mem size) seconds size
    else if wm.winType = 'h' then createWith wm (hannWindow A mem size) seconds size
    else if wm.winType = 'm' then createWith wm (hammingWindow A mem size) seconds size
    else (none, wm)

/-- `double *getWindowByLength(windowManager *wm, long int frames, double framerate)`:
the first stored entry whose `size` equals the request's sample count is served,
otherwise `CreateWindow` is called. -/
def getWindowByLength (A : DoubleOps α) (fts : α → α → α) (mem : Bool) (wm : windowManager α)
    (frames : Int) (framerate : α) : Option (List α) × windowManager α :=
  let seconds := fts (A.ofInt frames) framerate
  let size := A.floor (A.mul (A.ofInt wm.SamplesPerSec) seconds)
  match wm.entries.find? (fun u => decide (size = u.size)) with
  | some u => (u.window, wm)
  | none => CreateWindow A fts mem wm frames framerate

/-- `void freeWindows(windowManager *wm)`. -/
def freeWindows (wm : windowManager α) : windowManager α :=
  let arr := wm.windowArray.map fun arr =>
    (arr.take wm.windowCount.toNat).map (fun u => { u with window := none })
      ++ arr.drop wm.windowCount.toNat
  let wm := { wm with windowArray := arr }
  let wm := if wm.windowCount ≠ 0 then { wm with windowArray := none, windowCount := 0 } else wm
  { wm with MaxWindow := 0, SamplesPerSec := 0, winType := 'n' }

/-- The manager states reached from a successful `initWindows` by any sequence of
`getWindowByLength` calls. -/
inductive Reachable (A : DoubleOps α) (fts : α → α → α) : windowManager α → Prop
  | init (mem : Bool) (wm0 : windowManager α) (SamplesPerSec : Int) (winType : Char)
      (h : (initWindows A mem wm0 SamplesPerSec winType).1 = 1) :
      Reachable A fts (initWindows A mem wm0 SamplesPerSec winType).2
  | step (wm : windowManager α) (h : Reachable A fts wm) (mem : Bool) (frames : Int)
      (framerate : α) :
      Reachable A fts (getWindowByLength A fts mem wm frames framerate).2

/-! ## Correction factors -/

/-- `double CalculateCorrectionFactor(windowManager *wm, long int frames)`. -/
def CalculateCorrectionFactor (A : DoubleOps α) (wm : windowManager α) (frames : Int) : α :=
  match wm.entries.find? (fun u => decide (frames = u.frames)) with
  | none => A.ofInt 1
  | some u =>
    match u.window with
    | none => A.ofInt 1
    | some window =>
      let sum := forLoop 0 u.size
        (fun i sum => A.add sum (window.getD i.toNat (A.ofInt 0))) (A.ofInt 0)
      A.div (A.ofInt u.size) sum

/-- `double CompensateValueForWindow(double value, char winType)`. -/
def CompensateValueForWindow (A : DoubleOps α) (value : α) (winType : Char) : α :=
  if winType = 'n' then value
  else if winType = 't' then A.mul value (A.lit 12122 4)
  else if winType = 'f' then A.mul value (A.lit 463899 5)
  else if winType = 'h' then A.mul value (A.lit 199986 5)
  else if winType = 'm' then A.mul value (A.lit 185196 5)
  else value

/-! ## The spec's Tukey formula -/

/-- The Tukey formula in the spec's words, with the real midpoint
`M = (N-1)/2` (a `double` division) and `alpha = 0.65`:
`0.5*(1 + cos(pi*(|i-M| - alpha*M) / ((1-alpha)*M)))` when `|i-M| >= alpha*M`,
and `1` otherwise.  To be compared with `tukeyWindow`. -/
def tukeySpec (A : DoubleOps α) (N i : Int) : α :=
  let alpha := A.lit 65 2
  let M := A.div (A.ofInt (N - 1)) (A.ofInt 2)
  let d := A.fabs (A.sub (A.ofInt i) M)
  if A.ge d (A.mul alpha M) = true then
    A.mul (A.lit 5 1)
      (A.add (A.ofInt 1)
        (A.cos (A.div (A.mul A.pi (A.sub d (A.mul alpha M))) (A.mul (A.sub (A.ofInt 1) alpha) M))))
  else A.ofInt 1

/-! ## Invariants used in the proofs -/

/-- What a buffer looks like after `j` iterations of a filling loop
`for (i = 0; i < h; i++) w[i] = coef(i)`. -/
structure FillInv (coef : Int → α) (w0 : Buffer α) (j : Nat) (w : Buffer α) : Prop where
  length : w.cells.length = w0.cells.length
  filled : ∀ i, i < j → i < w0.cells.length → w.cells[i]? = some (coef (i : Int))
  rest : ∀ i, j ≤ i → w.cells[i]? = w0.cells[i]?
  stores : w.stores = w0.stores ++ (List.range j).map Int.ofNat

/-- What the state looks like after `j` iterations of the mirroring loop started
at index `h` with read index `idx0`. -/
structure MirrorInv (w0 : Buffer α) (h : Nat) (idx0 : Int) (j : Nat)
    (s : Buffer α × Int) : Prop where
  idx : s.2 = idx0 - (j : Int)
  length : s.1.cells.length = w0.cells.length
  low : ∀ i, i < h → s.1.cells[i]? = w0.cells[i]?
  mirrored : ∀ t, t < j → s.1.cells[h + t]? = w0.cells[(idx0 - (t : Int)).toNat]?
  high : ∀ i, h + j ≤ i → s.1.cells[i]? = w0.cells[i]?
  stores : s.1.stores = w0.stores ++ (List.range j).map (fun t => Int.ofNat (h + t))

/-- The invariant of the cache that `initWindows` establishes and
`getWindowByLength` maintains. -/
structure CacheInv (wm : windowManager α) : Prop where
  count_nonneg : 0 ≤ wm.windowCount
  count_le : wm.windowCount ≤ wm.MaxWindow
  family : wm.winType ≠ 'n' → wm.MaxWindow = MAX_WINDOWS - 1 ∧
    ∃ arr, wm.windowArray = some arr ∧ arr.length = MAX_WINDOWS.toNat
  inert : wm.winType = 'n' → wm.windowCount = 0
  sizes : wm.entries.Pairwise (fun u v => u.size ≠ v.size)
  size_ne_zero : ∀ u ∈ wm.entries, u.size ≠ 0
  window_ne_null : ∀ u ∈ wm.entries, u.window ≠ none
  frames_zero : ∀ arr, wm.windowArray = some arr → ∀ u ∈ arr, u.frames = 0

/-- The outcomes of one `getWindowByLength` call. -/
inductive Served (A : DoubleOps α) (fts : α → α → α) (mem : Bool) (wm : windowManager α)
    (frames : Int) (framerate : α) : Option (List α) × windowManager α → Prop
  | hit (u : windowUnit α)
      (hfind : wm.entries.find?
        (fun u => decide (sampleCount A fts wm.SamplesPerSec frames framerate = u.size)) = some u) :
      Served A fts mem wm frames framerate (u.window, wm)
  | refused
      (hfind : wm.entries.find?
        (fun u => decide (sampleCount A fts wm.SamplesPerSec frames framerate = u.size)) = none) :
      Served A fts mem wm frames framerate (none, wm)
  | created (w : List α)
      (hfind : wm.entries.find?
        (fun u => decide (sampleCount A fts wm.SamplesPerSec frames framerate = u.size)) = none)
      (hn : wm.winType ≠ 'n') (hfull : wm.windowCount ≠ wm.MaxWindow)
      (hsize : sampleCount A fts wm.SamplesPerSec frames framerate ≠ 0)
      (hgen : (wm.winType = 't' ∧
          tukeyWindow A mem (sampleCount A fts wm.SamplesPerSec frames framerate) = some w) ∨
        (wm.winType = 'f' ∧
          flattopWindow A mem (sampleCount A fts wm.SamplesPerSec frames framerate) = some w) ∨
        (wm.winType = 'h' ∧
          hannWindow A mem (sampleCount A fts wm.SamplesPerSec frames framerate) = some w) ∨
        (wm.winType = 'm' ∧
          hammingWindow A mem (sampleCount A fts wm.SamplesPerSec frames framerate) = some w)) :
      Served A fts mem wm frames framerate
        (some w, wm.record w (fts (A.ofInt frames) framerate)
          (sampleCount A fts wm.SamplesPerSec frames framerate))

/-! ## The one-loop generators of the refinement claim -/

/-- The naive one-loop Hann generator: `w[i] = 0.5*(1 - cos(2*pi*(i+1)/(n+1)))` for
every `i` in `[0, n)`, with no mirroring.  To be compared with `hannWindow`. -/
def hannDirect (A : DoubleOps α) (mem : Bool) (n : Int) : Option (List α) :=
  ((calloc A mem n).map fun w => forLoop 0 n (fun i w => w.store i (hannCoef A n i)) w).map
    Buffer.cells

/-- The naive one-loop Hamming generator: `w[i] = 0.54 - 0.46*cos(2*pi*i/(n-1))` for
every `i` in `[0, n)`, with no mirroring.  To be compared with `hammingWindow`. -/
def hammingDirect (A : DoubleOps α) (mem : Bool) (n : Int) : Option (List α) :=
  ((calloc A mem n).map fun w => forLoop 0 n (fun i w => w.store i (hammingCoef A n i)) w).map
    Buffer.cells

/-! ## The Dolph-Chebyshev window -/

/-- `double cheby_poly(int n, double x)`. -/
def cheby_poly (A : DoubleOps α) (n : Int) (x : α) : α :=
  if A.le (A.fabs x) (A.ofInt 1) = true then A.cos (A.mul (A.ofInt n) (A.acos x))
  else A.cosh (A.mul (A.ofInt n) (A.acosh x))

/-- The loop `for (i = lo; i <= M; i++) s = body(i, s)` whose bound `M` is a
`double`: the indices `lo, lo+1, ...` are taken as long as `(double)i <= M`.  At
most `cap` indices are examined (see `chebyM_bound`: in `cheby_win` the test
fails before the cap is reached). -/
def forLoopLe (A : DoubleOps α) (lo : Int) (M : α) (cap : Nat) (body : Int → σ → σ) (s : σ) : σ :=
  (((List.range cap).map (fun k => lo + Int.ofNat k)).takeWhile
    (fun i => A.le (A.ofInt i) M)).foldl (fun s i => body i s) s

/-- The value `tg = pow(10, atten/20)` of `cheby_win`.  The parameter `atten` is a
`float`: the argument is converted to `float` on entry, `atten/20` is a `float`
division (20 is converted to `float`), and the quotient is widened to `double`
for `pow`. -/
def chebyTg (A : DoubleOps α) (atten : α) : α :=
  A.pow (A.ofInt 10) (A.divf (A.toFloat atten) (A.ofInt 20))

/-- The value `x0 = cosh((1.0/(N-1))*acosh(tg))` of `cheby_win`. -/
def chebyX0 (A : DoubleOps α) (N : Int) (atten : α) : α :=
  A.cosh (A.mul (A.div (A.lit 1 0) (A.ofInt (N - 1))) (A.acosh (chebyTg A atten)))

/-- The value of `M` in `cheby_win`: `(N-1)/2` on `long int`, plus `0.5` for even `N`. -/
def chebyM (A : DoubleOps α) (N : Int) : α :=
  if N.tmod 2 = 0 then A.add (A.ofInt ((N - 1).tdiv 2)) (A.lit 5 1)
  else A.ofInt ((N - 1).tdiv 2)

/-- The inner loop of `cheby_win` for `n = nn - M`:
`sum = 0; for (i = 1; i <= M; i++) sum += cheby_poly(N-1, x0*cos(M_PI*i/N))*cos(2.0*n*M_PI*i/N)`. -/
def chebySum (A : DoubleOps α) (N : Int) (atten : α) (n : α) : α :=
  forLoopLe A 1 (chebyM A N) N.toNat
    (fun i sum =>
      A.add sum
        (A.mul
          (cheby_poly A (N - 1)
            (A.mul (chebyX0 A N atten) (A.cos (A.div (A.mul A.pi (A.ofInt i)) (A.ofInt N)))))
          (A.cos (A.div (A.mul (A.mul (A.mul (A.lit 2 0) n) A.pi) (A.ofInt i)) (A.ofInt N)))))
    (A.ofInt 0)

/-- The un-normalised coefficient `tg + 2*sum` that iteration `nn` of the outer
loop of `cheby_win` stores in `w[nn]`. -/
def chebyCoef (A : DoubleOps α) (N : Int) (atten : α) (nn : Int) : α :=
  A.add (chebyTg A atten)
    (A.mul (A.ofInt 2) (chebySum A N atten (A.sub (A.ofInt nn) (chebyM A N))))

/-- The first loop of `freeWindows`: the `window` of every stored entry
`windowArray[0 .. windowCount)` is freed and set to `NULL`. -/
def freeWindowsLoop (wm : windowManager α) : windowManager α :=
  { wm with
    windowArray := wm.windowArray.map fun arr =>
      (arr.take wm.windowCount.toNat).map (fun u => { u with window := none })
        ++ arr.drop wm.windowCount.toNat }

/-- The rest of `freeWindows`, after its first loop: when `windowCount` is not 0 the
array is freed and set to `NULL` and `windowCount` is set to 0; then `MaxWindow`,
`SamplesPerSec` and `winType` are reset. -/
def freeWindowsFinish (wm : windowManager α) : windowManager α :=
  let wm := if wm.windowCount ≠ 0 then { wm with windowArray := none, windowCount := 0 } else wm
  { wm with MaxWindow := 0, SamplesPerSec := 0, winType := 'n' }

/-! ## The machine value of `M_PI` -/

/-- The value of the `double` constant `M_PI` (`0x400921FB54442D18`, the `double`
nearest to π): `884279719003555 / 2^48`. -/
def M_PI_double : ℚ := 884279719003555 / 281474976710656

/-- The reading of the arithmetic that is exact in every operation of the Hann
and Hamming generators but keeps `M_PI` at its machine value: the carrier is `ℝ`,
`M_PI` is the `double` constant, and the operations do not round. -/
structure DoubleOps.IsExactWithMachinePi (A : DoubleOps ℝ) : Prop where
  ofInt : ∀ z, A.ofInt z = (z : ℝ)
  lit : ∀ m e, A.lit m e = (m : ℝ) / 10 ^ e
  pi : A.pi = (M_PI_double : ℝ)
  add : ∀ x y, A.add x y = x + y
  sub : ∀ x y, A.sub x y = x - y
  mul : ∀ x y, A.mul x y = x * y
  div : ∀ x y, A.div x y = x / y
  cos : ∀ x, A.cos x = Real.cos x

/-! ## Readings of the arithmetic for `cheby_win` -/

/-- A rational that is a `double` as it stands: a half-integer of magnitude at most
`2^52`. -/
def XDouble.exact (q : ℚ) : Bool := decide (q.den ≤ 2 ∧ |q| ≤ 2 ^ 52)

theorem forLoop_zero (lo : Int) (body : Int → σ → σ) (s : σ) :
    forLoop lo lo body s = s := by
  simp [forLoop]

theorem forLoop_add_succ (lo : Int) (k : Nat) (body : Int → σ → σ) (s : σ) :
    forLoop lo (lo + ((k + 1 : Nat) : Int)) body s
      = body (lo + (k : Int)) (forLoop lo (lo + (k : Int)) body s) := by
  simp [forLoop, List.range_succ, List.foldl_append]

/-- Invariant rule for `forLoop`: a property that holds before the loop and is
carried by each iteration holds after `k` iterations. -/
theorem forLoop_invariant (P : Nat → σ → Prop) (lo : Int) (body : Int → σ → σ) (s : σ)
    (k : Nat) (h0 : P 0 s)
    (hstep : ∀ j t, j < k → P j t → P (j + 1) (body (lo + (j : Int)) t)) :
    P k (forLoop lo (lo + (k : Int)) body s) := by
  induction k with
  | zero => simpa [forLoop_zero] using h0
  | succ k ih =>
    rw [forLoop_add_succ]
    exact hstep k _ (Nat.lt_succ_self k)
      (ih (fun j t hj hP => hstep j t (Nat.lt_succ_of_lt hj) hP))

theorem Buffer.store_cells_natCast (w : Buffer α) (i : Nat) (v : α) :
    (w.store (i : Int) v).cells = w.cells.set i v := by
  simp [Buffer.store]

theorem Buffer.store_stores (w : Buffer α) (i : Int) (v : α) :
    (w.store i v).stores = w.stores ++ [i] := rfl

theorem Buffer.load_natCast (w : Buffer α) (i : Nat) (d x : α)
    (h : w.cells[i]? = some x) : w.load (i : Int) d = x := by
  simp [Buffer.load, h]

theorem fill_spec (coef : Int → α) (w0 : Buffer α) (h : Nat) :
    FillInv coef w0 h (forLoop 0 (h : Int) (fun i w => w.store i (coef i)) w0) := by
  have key := forLoop_invariant (FillInv coef w0) 0 (fun i w => w.store i (coef i)) w0 h
    ⟨rfl, fun i hi => absurd hi (Nat.not_lt_zero i), fun _ _ => rfl, by simp⟩
    (by
      intro j t _ ht
      refine ⟨?_, ?_, ?_, ?_⟩
      · simp [Buffer.store_cells_natCast, ht.length]
      · intro i hi hlen
        simp only [zero_add, Buffer.store_cells_natCast, List.getElem?_set]
        by_cases hij : j = i
        · subst hij
          simp [ht.length, hlen]
        · simp only [hij, if_false]
          exact ht.filled i (by omega) hlen
      · intro i hi
        simp only [zero_add, Buffer.store_cells_natCast]
        rw [List.getElem?_set_ne (by omega)]
        exact ht.rest i (by omega)
      · simp [Buffer.store_stores, ht.stores, List.range_succ])
  simpa using key

theorem mirror_spec (A : DoubleOps α) (w0 : Buffer α) (h m : Nat) (idx0 : Int)
    (hidx : idx0 < (h : Int)) (hm : (m : Int) ≤ idx0 + 1) (hlen : h + m ≤ w0.cells.length) :
    MirrorInv w0 h idx0 m
      (forLoop (h : Int) ((h : Int) + (m : Int))
        (fun i (s : Buffer α × Int) => (s.1.store i (s.1.load s.2 (A.ofInt 0)), s.2 - 1))
        (w0, idx0)) := by
  apply forLoop_invariant (MirrorInv w0 h idx0)
  · exact ⟨by simp, rfl, fun _ _ => rfl, fun t ht => absurd ht (Nat.not_lt_zero t),
      fun _ _ => rfl, by simp⟩
  · intro j s hj hs
    have hnn : 0 ≤ idx0 - (j : Int) := by omega
    obtain ⟨r, hr⟩ : ∃ r : Nat, idx0 - (j : Int) = (r : Int) := ⟨_, (Int.toNat_of_nonneg hnn).symm⟩
    have hrh : r < h := by omega
    have hrlen : r < w0.cells.length := by omega
    have hload : s.1.load s.2 (A.ofInt 0) = w0.cells[r] := by
      rw [hs.idx, hr]
      apply Buffer.load_natCast
      rw [hs.low r hrh]
      exact List.getElem?_eq_getElem hrlen
    have hcast : ((h : Int) + (j : Int)) = ((h + j : Nat) : Int) := by push_cast; rfl
    refine ⟨?_, ?_, ?_, ?_, ?_, ?_⟩
    · show s.2 - 1 = _
      rw [hs.idx]; push_cast; ring
    · show (s.1.store _ _).cells.length = _
      rw [hcast, Buffer.store_cells_natCast]; simp [hs.length]
    · intro i hi
      show (s.1.store _ _).cells[i]? = _
      rw [hcast, Buffer.store_cells_natCast, List.getElem?_set_ne (by omega)]
      exact hs.low i hi
    · intro t ht
      show (s.1.store _ _).cells[h + t]? = _
      rw [hcast, Buffer.store_cells_natCast]
      by_cases htj : t = j
      · subst htj
        rw [List.getElem?_set_self (by rw [hs.length]; omega), hload, hr]
        simp [List.getElem?_eq_getElem hrlen]
      · rw [List.getElem?_set_ne (by omega)]
        exact hs.mirrored t (by omega)
    · intro i hi
      show (s.1.store _ _).cells[i]? = _
      rw [hcast, Buffer.store_cells_natCast, List.getElem?_set_ne (by omega)]
      exact hs.high i (by omega)
    · show (s.1.store _ _).stores = _
      rw [Buffer.store_stores, hs.stores, hcast]
      simp [List.range_succ]

/-- The fill-then-mirror scheme with `h` computed cells, `m` mirrored cells and
first read index `idx0 = h + m - 1 - h`. -/
theorem fill_mirror_spec (A : DoubleOps α) (coef : Int → α) (w0 : Buffer α) (h m : Nat)
    (idx0 : Int) (hidx : idx0 + 1 = (m : Int)) (hmh : m ≤ h) (hhm : h ≤ m + 1)
    (hlen : w0.cells.length = h + m) (hst : w0.stores = []) :
    let w := mirrorLoop A (h : Int) ((h : Int) + (m : Int)) idx0
      (forLoop 0 (h : Int) (fun i w => w.store i (coef i)) w0)
    w.cells.length = h + m ∧
    (∀ i, i < h + m →
      w.cells[i]? = some (coef (min (i : Int) (((h + m : Nat) : Int) - 1 - (i : Int))))) ∧
    w.stores = (List.range (h + m)).map Int.ofNat := by
  intro w
  have hf := fill_spec coef w0 h
  have hmi := mirror_spec A (forLoop 0 (h : Int) (fun i w => w.store i (coef i)) w0) h m idx0
    (by omega) (by omega) (by rw [hf.length, hlen])
  refine ⟨?_, ?_, ?_⟩
  · show (mirrorLoop _ _ _ _ _).cells.length = _
    unfold mirrorLoop
    rw [hmi.length, hf.length, hlen]
  · intro i hi
    show (mirrorLoop _ _ _ _ _).cells[i]? = _
    unfold mirrorLoop
    by_cases hih : i < h
    · rw [hmi.low i hih, hf.filled i hih (by omega)]
      congr 2
      push_cast
      omega
    · obtain ⟨t, rfl⟩ : ∃ t, i = h + t := ⟨i - h, by omega⟩
      have ht : t < m := by omega
      rw [hmi.mirrored t ht]
      have hnn : 0 ≤ idx0 - (t : Int) := by omega
      have hlt : (idx0 - (t : Int)).toNat < h := by omega
      rw [hf.filled _ hlt (by omega)]
      congr 2
      rw [Int.toNat_of_nonneg hnn]
      push_cast
      omega
  · show (mirrorLoop _ _ _ _ _).stores = _
    unfold mirrorLoop
    rw [hmi.stores, hf.stores, hst, List.range_add]
    simp only [List.nil_append, List.map_append, List.map_map, Function.comp_def]

/-- The buffer built by the shared fill-then-mirror code on a zeroed buffer of
length `N`: every cell holds the first-half formula at `min i (N-1-i)`, and the
loops assigned the indices `0, 1, ..., N-1` in this order, each once. -/
theorem halfAndMirror_spec (A : DoubleOps α) (coef : Int → α) (N : Nat) (w0 : Buffer α)
    (hlen : w0.cells.length = N) (hst : w0.stores = []) :
    (halfAndMirror A coef (N : Int) w0).cells.length = N ∧
    (∀ i, i < N → (halfAndMirror A coef (N : Int) w0).cells[i]?
        = some (coef (min (i : Int) ((N : Int) - 1 - (i : Int))))) ∧
    (halfAndMirror A coef (N : Int) w0).stores = (List.range N).map Int.ofNat := by
  rcases Nat.even_or_odd' N with ⟨k, hk | hk⟩
  · have h1 : (N : Int).tmod 2 = 0 := by
      rw [show (2 : Int) = ((2 : Nat) : Int) from rfl, ← Int.ofNat_tmod]; subst hk; simp
    have h2 : (N : Int).tdiv 2 = (k : Int) := by
      rw [show (2 : Int) = ((2 : Nat) : Int) from rfl, ← Int.ofNat_tdiv]; subst hk; simp
    have h3 : (N : Int) = (k : Int) + (k : Int) := by subst hk; push_cast; ring
    have h4 : N = k + k := by omega
    have := fill_mirror_spec A coef w0 k k ((k : Int) - 1) (by omega) (le_refl k)
      (by omega) (by omega) hst
    simp only [halfAndMirror, h1, if_true, h2]
    rw [h3, h4]
    exact this
  · have h1 : ¬ (N : Int).tmod 2 = 0 := by
      rw [show (2 : Int) = ((2 : Nat) : Int) from rfl, ← Int.ofNat_tmod]; subst hk
      simp [Nat.add_mod]
    have h2 : ((N : Int) + 1).tdiv 2 = ((k + 1 : Nat) : Int) := by
      rw [show (2 : Int) = ((2 : Nat) : Int) from rfl,
        show (N : Int) + 1 = ((N + 1 : Nat) : Int) from rfl, ← Int.ofNat_tdiv]
      subst hk
      congr 1
      omega
    have h3 : (N : Int) = ((k + 1 : Nat) : Int) + (k : Int) := by subst hk; push_cast; ring
    have h4 : N = (k + 1) + k := by omega
    have := fill_mirror_spec A coef w0 (k + 1) k (((k + 1 : Nat) : Int) - 2)
      (by push_cast; omega) (Nat.le_succ k) (by omega) (by omega) hst
    simp only [halfAndMirror, h1, if_false, h2]
    rw [h3, h4]
    exact this

theorem calloc_true (A : DoubleOps α) (N : Nat) :
    calloc A true (N : Int)
      = some { cells := List.replicate N (A.ofInt 0), stores := [] } := by
  simp [calloc]

/-- A generator built on the shared fill-then-mirror code, on a successful
allocation of `N` cells. -/
theorem mirrored_buffer_spec (A : DoubleOps α) (coef : Int → α) (N : Nat) :
    ∃ b, (calloc A true (N : Int)).map (halfAndMirror A coef (N : Int)) = some b ∧
      b.cells.length = N ∧
      (∀ i, i < N → b.cells[i]? = some (coef (min (i : Int) ((N : Int) - 1 - (i : Int))))) ∧
      b.stores = (List.range N).map Int.ofNat := by
  rw [calloc_true]
  exact ⟨_, rfl, halfAndMirror_spec A coef N _ (by simp) rfl⟩

theorem mirrored_buffer_symm (A : DoubleOps α) (coef : Int → α) (N i : Nat) (hi : i < N) :
    ∃ w x, ((calloc A true (N : Int)).map (halfAndMirror A coef (N : Int))).map Buffer.cells
        = some w ∧ w.length = N ∧ w[i]? = some x ∧ w[N - 1 - i]? = some x := by
  obtain ⟨b, hb, hlen, hcells, _⟩ := mirrored_buffer_spec A coef N
  refine ⟨b.cells, _, by rw [hb]; rfl, hlen, hcells i hi, ?_⟩
  rw [hcells (N - 1 - i) (by omega)]
  congr 2
  omega

theorem mirrored_buffer_midpoint (coef : Int → α) (N : Nat) (b : Buffer α)
    (hcells : ∀ i, i < N →
      b.cells[i]? = some (coef (min (i : Int) ((N : Int) - 1 - (i : Int)))))
    (hodd : N % 2 = 1) :
    b.cells[(N - 1) / 2]? = some (coef (Int.ofNat ((N - 1) / 2))) := by
  rw [hcells _ (by omega)]
  congr 2
  simp only [Int.ofNat_eq_coe]
  omega

/-- The mirrored generators as one list: cell `i` is the formula at `min i (N-1-i)`. -/
theorem mirrored_cells_eq (A : DoubleOps α) (coef : Int → α) (N : Nat) :
    ((calloc A true (N : Int)).map (halfAndMirror A coef (N : Int))).map Buffer.cells
      = some ((List.range N).map
          (fun i => coef (min (Int.ofNat i) ((N : Int) - 1 - Int.ofNat i)))) := by
  obtain ⟨b, hb, hlen, hcells, _⟩ := mirrored_buffer_spec A coef N
  rw [hb, Option.map_some', Option.some.injEq]
  apply List.ext_getElem?
  intro i
  by_cases hi : i < N
  · rw [hcells i hi, List.getElem?_map, List.getElem?_range hi]
    rfl
  · rw [List.getElem?_eq_none (by omega), List.getElem?_eq_none (by simp; omega)]

/-! ## The real-number reading -/

/-- The real-number arithmetic exists: `IsReal` is satisfiable. -/
theorem DoubleOps.exists_isReal : ∃ R : DoubleOps ℝ, R.IsReal :=
  ⟨{ ofInt := fun z => (z : ℝ)
     lit := fun m e => (m : ℝ) / 10 ^ e
     pi := Real.pi
     add := fun x y => x + y
     sub := fun x y => x - y
     mul := fun x y => x * y
     div := fun x y => x / y
     cos := Real.cos
     acos := Real.arccos
     cosh := Real.cosh
     acosh := fun x => Real.log (x + Real.sqrt (x ^ 2 - 1))
     pow := fun x y => x ^ y
     fabs := fun x => |x|
     ge := fun x y => decide (y ≤ x)
     gt := fun x y => decide (y < x)
     le := fun x y => decide (x ≤ y)
     floor := fun x => ⌊x⌋
     toFloat := fun x => x
     divf := fun x y => x / y },
   { ofInt := fun _ => rfl
     lit := fun _ _ => rfl
     pi := rfl
     add := fun _ _ => rfl
     sub := fun _ _ => rfl
     mul := fun _ _ => rfl
     div := fun _ _ => rfl
     cos := fun _ => rfl
     fabs := fun _ => rfl
     ge := fun _ _ => by simp
     gt := fun _ _ => by simp
     le := fun _ _ => by simp
     floor := fun _ => rfl }⟩

theorem flattopCoef_real (R : DoubleOps ℝ) (hR : R.IsReal) (n k : Int) :
    flattopCoef R n k
      = 0.21557895 - 0.41663158 * Real.cos (2 * Real.pi * k / (n - 1))
        + 0.277263158 * Real.cos (2 * (2 * Real.pi * k / (n - 1)))
        - 0.083578947 * Real.cos (3 * (2 * Real.pi * k / (n - 1)))
        + 0.006947368 * Real.cos (4 * (2 * Real.pi * k / (n - 1))) := by
  simp only [flattopCoef, hR.add, hR.sub, hR.mul, hR.div, hR.cos, hR.lit, hR.ofInt, hR.pi]
  norm_num

theorem hannCoef_real (R : DoubleOps ℝ) (hR : R.IsReal) (n k : Int) :
    hannCoef R n k = 0.5 * (1 - Real.cos (2 * Real.pi * (k + 1) / (n + 1))) := by
  simp only [hannCoef, hR.sub, hR.mul, hR.div, hR.cos, hR.lit, hR.ofInt, hR.pi]
  norm_num

theorem hammingCoef_real (R : DoubleOps ℝ) (hR : R.IsReal) (n k : Int) :
    hammingCoef R n k = 0.54 - 0.46 * Real.cos (2 * Real.pi * k / (n - 1)) := by
  simp only [hammingCoef, hR.sub, hR.mul, hR.div, hR.cos, hR.lit, hR.ofInt, hR.pi]
  norm_num

theorem hannCoef_eight_zero_lt_one (R : DoubleOps ℝ) (hR : R.IsReal) : hannCoef R 8 0 < 1 := by
  rw [hannCoef_real R hR]
  have hpos : 0 < Real.cos (2 * Real.pi * (((0 : Int) : ℝ) + 1) / (((8 : Int) : ℝ) + 1)) := by
    apply Real.cos_pos_of_mem_Ioo
    constructor
    · have := Real.pi_pos
      have h2 : (0 : ℝ) < 2 * Real.pi * (((0 : Int) : ℝ) + 1) / (((8 : Int) : ℝ) + 1) := by
        positivity
      linarith
    · have := Real.pi_pos
      norm_num
      linarith
  linarith

theorem hannCoef_le_one (R : DoubleOps ℝ) (hR : R.IsReal) (n k : Int) : hannCoef R n k ≤ 1 := by
  rw [hannCoef_real R hR]
  have := Real.neg_one_le_cos (2 * Real.pi * ((k : ℝ) + 1) / ((n : ℝ) + 1))
  linarith

/-! ## The Tukey window -/

/-- On a successful allocation `tukeyWindow` returns `N` cells, cell `i` holding
the loop body's value for the truncated midpoint `M = (N-1)/2`. -/
theorem tukeyWindow_cells (A : DoubleOps α) (N : Nat) :
    ∃ w, tukeyWindow A true (N : Int) = some w ∧ w.length = N ∧
      ∀ i, i < N →
        w[i]? = some (tukeyCoef A (A.ofInt (((N : Int) - 1).tdiv 2)) (A.lit 65 2) (i : Int)) := by
  have hf := fill_spec (tukeyCoef A (A.ofInt (((N : Int) - 1).tdiv 2)) (A.lit 65 2))
    { cells := List.replicate N (A.ofInt 0), stores := [] } N
  refine ⟨_, by rw [tukeyWindow, tukeyBuffer, calloc_true]; rfl, ?_, ?_⟩
  · simpa using hf.length
  · intro i hi
    exact hf.filled i hi (by simpa using hi)

theorem tukeyCoef_four_one (R : DoubleOps ℝ) (hR : R.IsReal) :
    tukeyCoef R (R.ofInt ((((4 : Nat) : Int) - 1).tdiv 2)) (R.lit 65 2) ((1 : Nat) : Int) = 1 := by
  have hM : (((4 : Nat) : Int) - 1).tdiv 2 = 1 := by decide
  have hc : ¬ R.ge (R.fabs (R.sub (R.ofInt ((1 : Nat) : Int)) (R.ofInt 1)))
      (R.mul (R.lit 65 2) (R.ofInt 1)) = true := by
    rw [hR.ge]
    simp only [hR.fabs, hR.sub, hR.mul, hR.lit, hR.ofInt]
    norm_num
  rw [hM, tukeyCoef, if_neg hc, hR.ofInt]
  norm_num

theorem tukeyCoef_four_two (R : DoubleOps ℝ) (hR : R.IsReal) :
    tukeyCoef R (R.ofInt ((((4 : Nat) : Int) - 1).tdiv 2)) (R.lit 65 2) ((2 : Nat) : Int) = 0 := by
  have hM : (((4 : Nat) : Int) - 1).tdiv 2 = 1 := by decide
  have hc : R.ge (R.fabs (R.sub (R.ofInt ((2 : Nat) : Int)) (R.ofInt 1)))
      (R.mul (R.lit 65 2) (R.ofInt 1)) = true := by
    rw [hR.ge]
    simp only [hR.fabs, hR.sub, hR.mul, hR.lit, hR.ofInt]
    norm_num
  rw [hM, tukeyCoef, if_pos hc]
  simp only [hR.fabs, hR.sub, hR.mul, hR.add, hR.div, hR.cos, hR.lit, hR.ofInt, hR.pi]
  have harg : Real.pi * (|(((2 : Nat) : Int) : ℝ) - ((1 : Int) : ℝ)|
      - ((65 : Nat) : ℝ) / 10 ^ 2 * ((1 : Int) : ℝ))
      / ((((1 : Int) : ℝ) - ((65 : Nat) : ℝ) / 10 ^ 2) * ((1 : Int) : ℝ)) = Real.pi := by
    norm_num
  rw [harg, Real.cos_pi]
  norm_num

theorem tukeySpec_four_two (R : DoubleOps ℝ) (hR : R.IsReal) : tukeySpec R 4 2 = 1 := by
  unfold tukeySpec
  dsimp only
  split
  next h =>
    exfalso
    rw [hR.ge] at h
    simp only [hR.fabs, hR.sub, hR.mul, hR.div, hR.lit, hR.ofInt] at h
    rw [show (((2 : Int) : ℝ)) - (((4 - 1 : Int)) : ℝ) / ((2 : Int) : ℝ) = 1 / 2 by norm_num,
      abs_of_pos (by norm_num)] at h
    norm_num at h
  next =>
    rw [hR.ofInt]
    norm_num

theorem tukeySpec_eq_tukeyCoef (A : DoubleOps α) (N i : Int) :
    tukeySpec A N i = tukeyCoef A (A.div (A.ofInt (N - 1)) (A.ofInt 2)) (A.lit 65 2) i := rfl

theorem tukey_midpoint_odd (R : DoubleOps ℝ) (hR : R.IsReal) (k : Nat) :
    R.ofInt ((((2 * k + 1 : Nat) : Int) - 1).tdiv 2)
      = R.div (R.ofInt (((2 * k + 1 : Nat) : Int) - 1)) (R.ofInt 2) := by
  have h1 : (((2 * k + 1 : Nat) : Int) - 1) = ((2 * k : Nat) : Int) := by push_cast; ring
  have h2 : (((2 * k : Nat) : Int)).tdiv 2 = (k : Int) := by
    rw [show (2 : Int) = ((2 : Nat) : Int) from rfl, ← Int.ofNat_tdiv]
    simp
  rw [h1, h2, hR.div, hR.ofInt, hR.ofInt, hR.ofInt]
  push_cast
  ring

/-- For odd lengths the truncated midpoint is the real midpoint, and `tukeyWindow`
agrees with the spec's formula at every index (real-number reading). -/
theorem tukeyWindow_odd_closed_form (R : DoubleOps ℝ) (hR : R.IsReal) (k i : Nat)
    (hi : i < 2 * k + 1) :
    ∃ w, tukeyWindow R true ((2 * k + 1 : Nat) : Int) = some w ∧ w.length = 2 * k + 1 ∧
      w[i]? = some (tukeySpec R ((2 * k + 1 : Nat) : Int) (i : Int)) := by
  obtain ⟨w, hw, hlen, hcells⟩ := tukeyWindow_cells R (2 * k + 1)
  refine ⟨w, hw, hlen, ?_⟩
  rw [hcells i hi, tukeySpec_eq_tukeyCoef, tukey_midpoint_odd R hR k]

/-- For odd lengths `tukeyWindow` is symmetric (real-number reading). -/
theorem tukeyWindow_odd_symmetric (R : DoubleOps ℝ) (hR : R.IsReal) (k i : Nat)
    (hi : i < 2 * k + 1) :
    ∃ w x, tukeyWindow R true ((2 * k + 1 : Nat) : Int) = some w ∧
      w[i]? = some x ∧ w[2 * k + 1 - 1 - i]? = some x := by
  obtain ⟨w, hw, _, hcells⟩ := tukeyWindow_cells R (2 * k + 1)
  refine ⟨w, _, hw, hcells i hi, ?_⟩
  rw [hcells (2 * k + 1 - 1 - i) (by omega)]
  have h1 : (((2 * k + 1 : Nat) : Int) - 1) = ((2 * k : Nat) : Int) := by push_cast; ring
  have h2 : (((2 * k : Nat) : Int)).tdiv 2 = (k : Int) := by
    rw [show (2 : Int) = ((2 : Nat) : Int) from rfl, ← Int.ofNat_tdiv]
    simp
  have habs : R.fabs (R.sub (R.ofInt ((2 * k + 1 - 1 - i : Nat) : Int)) (R.ofInt (k : Int)))
      = R.fabs (R.sub (R.ofInt (i : Int)) (R.ofInt (k : Int))) := by
    simp only [hR.fabs, hR.sub, hR.ofInt]
    have : (((2 * k + 1 - 1 - i : Nat) : Int) : ℝ) = 2 * (k : ℝ) - (i : ℝ) := by
      have hle : i ≤ 2 * k := by omega
      have : 2 * k + 1 - 1 - i = 2 * k - i := by omega
      rw [this]
      push_cast [Nat.cast_sub hle]
      ring
    rw [this, Int.cast_natCast, Int.cast_natCast, show 2 * (k : ℝ) - (i : ℝ) - (k : ℝ)
      = -((i : ℝ) - (k : ℝ)) by ring, abs_neg]
  rw [h1, h2]
  unfold tukeyCoef
  rw [habs]

/-! ## The window cache -/

theorem entries_length (wm : windowManager α) (h : CacheInv wm) :
    wm.entries.length = wm.windowCount.toNat := by
  unfold windowManager.entries
  by_cases hn : wm.winType = 'n'
  · simp [h.inert hn]
  · obtain ⟨hmax, arr, harr, hlen⟩ := h.family hn
    have h1 := h.count_le
    have h2 := h.count_nonneg
    have h3 : MAX_WINDOWS = 100 := rfl
    rw [harr, Option.getD_some, List.length_take, hlen]
    omega

/-- Recording a window in slot `windowCount` appends one entry: the slot with
its `window`, `seconds` and `size` fields overwritten. -/
theorem entries_record (wm : windowManager α) (arr : List (windowUnit α))
    (harr : wm.windowArray = some arr) (h0 : 0 ≤ wm.windowCount)
    (hlt : wm.windowCount.toNat < arr.length) (w : List α) (seconds : α) (size : Int) :
    (wm.record w seconds size).entries
      = wm.entries ++ [{ arr[wm.windowCount.toNat] with
          window := some w, seconds := seconds, size := size }] := by
  have hc : (wm.windowCount + 1).toNat = wm.windowCount.toNat + 1 := by omega
  simp only [windowManager.entries, windowManager.record, harr, Option.map_some',
    Option.getD_some, if_pos h0, hc]
  rw [List.modify_eq_take_cons_drop hlt, List.take_append_eq_append_take]
  simp [List.length_take, Nat.min_eq_left (Nat.le_of_lt hlt), List.take_take]

theorem mem_modify_frames (arr : List (windowUnit α)) (c : Nat) (f : windowUnit α → windowUnit α)
    (hf : ∀ u, (f u).frames = u.frames) (h : ∀ u ∈ arr, u.frames = 0) :
    ∀ u ∈ arr.modify f c, u.frames = 0 := by
  intro u hu
  by_cases hc : c < arr.length
  · rw [List.modify_eq_take_cons_drop hc] at hu
    rcases List.mem_append.1 hu with hu | hu
    · exact h u (List.mem_of_mem_take hu)
    · rcases List.mem_cons.1 hu with hu | hu
      · rw [hu, hf]
        exact h _ (List.getElem_mem _)
      · exact h u (List.mem_of_mem_drop hu)
  · rw [List.modify_eq_self (by omega)] at hu
    exact h u hu

theorem cacheInv_record (wm : windowManager α) (h : CacheInv wm) (hn : wm.winType ≠ 'n')
    (hfull : wm.windowCount ≠ wm.MaxWindow) (w : List α) (seconds : α) (size : Int)
    (hsize : size ≠ 0) (hmiss : ∀ u ∈ wm.entries, u.size ≠ size) :
    CacheInv (wm.record w seconds size) := by
  obtain ⟨hmax, arr, harr, hlen⟩ := h.family hn
  have h1 := h.count_le
  have h2 := h.count_nonneg
  have h3 : MAX_WINDOWS = 100 := rfl
  have hlt : wm.windowCount.toNat < arr.length := by omega
  have hent := entries_record wm arr harr h2 hlt w seconds size
  refine ⟨?_, ?_, ?_, ?_, ?_, ?_, ?_, ?_⟩
  · show 0 ≤ wm.windowCount + 1
    omega
  · show wm.windowCount + 1 ≤ wm.MaxWindow
    omega
  · intro _
    refine ⟨hmax, ?_⟩
    simp only [windowManager.record, harr, Option.map_some', if_pos h2]
    exact ⟨_, rfl, by simpa using hlen⟩
  · intro hn'
    exact absurd hn' hn
  · rw [hent, List.pairwise_append]
    refine ⟨h.sizes, List.pairwise_singleton _ _, ?_⟩
    intro u hu v hv
    rw [List.mem_singleton] at hv
    subst hv
    exact hmiss u hu
  · rw [hent]
    intro u hu
    rcases List.mem_append.1 hu with hu | hu
    · exact h.size_ne_zero u hu
    · rw [List.mem_singleton] at hu
      subst hu
      exact hsize
  · rw [hent]
    intro u hu
    rcases List.mem_append.1 hu with hu | hu
    · exact h.window_ne_null u hu
    · rw [List.mem_singleton] at hu
      subst hu
      simp
  · intro arr' harr'
    simp only [windowManager.record, harr, Option.map_some', if_pos h2, Option.some.injEq]
      at harr'
    subst harr'
    exact mem_modify_frames arr _ _ (fun _ => rfl) (h.frames_zero arr harr)

theorem getWindowByLength_served (A : DoubleOps α) (fts : α → α → α) (mem : Bool)
    (wm : windowManager α) (frames : Int) (framerate : α) :
    Served A fts mem wm frames framerate (getWindowByLength A fts mem wm frames framerate) := by
  unfold getWindowByLength
  dsimp only
  cases hfind : wm.entries.find?
      (fun u => decide (A.floor (A.mul (A.ofInt wm.SamplesPerSec)
        (fts (A.ofInt frames) framerate)) = u.size)) with
  | some u => exact Served.hit u hfind
  | none =>
    dsimp only
    unfold CreateWindow
    dsimp only
    by_cases hn : wm.winType = 'n'
    · rw [if_pos hn]; exact Served.refused hfind
    rw [if_neg hn]
    by_cases hfull : wm.windowCount = wm.MaxWindow
    · rw [if_pos hfull]; exact Served.refused hfind
    rw [if_neg hfull]
    by_cases hsize : A.floor (A.mul (A.ofInt wm.SamplesPerSec)
        (fts (A.ofInt frames) framerate)) = 0
    · rw [if_pos hsize]; exact Served.refused hfind
    rw [if_neg hsize]
    by_cases ht : wm.winType = 't'
    · rw [if_pos ht]
      cases hg : tukeyWindow A mem (A.floor (A.mul (A.ofInt wm.SamplesPerSec)
          (fts (A.ofInt frames) framerate))) with
      | none => exact Served.refused hfind
      | some w => exact Served.created w hfind hn hfull hsize (Or.inl ⟨ht, hg⟩)
    rw [if_neg ht]
    by_cases hf : wm.winType = 'f'
    · rw [if_pos hf]
      cases hg : flattopWindow A mem (A.floor (A.mul (A.ofInt wm.SamplesPerSec)
          (fts (A.ofInt frames) framerate))) with
      | none => exact Served.refused hfind
      | some w => exact Served.created w hfind hn hfull hsize (Or.inr (Or.inl ⟨hf, hg⟩))
    rw [if_neg hf]
    by_cases hh : wm.winType = 'h'
    · rw [if_pos hh]
      cases hg : hannWindow A mem (A.floor (A.mul (A.ofInt wm.SamplesPerSec)
          (fts (A.ofInt frames) framerate))) with
      | none => exact Served.refused hfind
      | some w => exact Served.created w hfind hn hfull hsize (Or.inr (Or.inr (Or.inl ⟨hh, hg⟩)))
    rw [if_neg hh]
    by_cases hm : wm.winType = 'm'
    · rw [if_pos hm]
      cases hg : hammingWindow A mem (A.floor (A.mul (A.ofInt wm.SamplesPerSec)
          (fts (A.ofInt frames) framerate))) with
      | none => exact Served.refused hfind
      | some w => exact Served.created w hfind hn hfull hsize (Or.inr (Or.inr (Or.inr ⟨hm, hg⟩)))
    rw [if_neg hm]
    exact Served.refused hfind

theorem find?_size_none (wm : windowManager α) (size : Int)
    (h : wm.entries.find? (fun u => decide (size = u.size)) = none) :
    ∀ u ∈ wm.entries, u.size ≠ size := by
  intro u hu he
  have := List.find?_eq_none.1 h u hu
  simp [he] at this

theorem cacheInv_initWindows (A : DoubleOps α) (mem : Bool) (wm0 : windowManager α)
    (SamplesPerSec : Int) (winType : Char)
    (h : (initWindows A mem wm0 SamplesPerSec winType).1 = 1) :
    CacheInv (initWindows A mem wm0 SamplesPerSec winType).2 := by
  unfold initWindows at h ⊢
  dsimp only at h ⊢
  by_cases hn : winType = 'n'
  · rw [if_pos hn]
    exact ⟨le_refl _, le_refl _, fun h => absurd rfl h, fun _ => rfl,
      by simp [windowManager.entries], by simp [windowManager.entries],
      by simp [windowManager.entries], by simp⟩
  · rw [if_neg hn] at h ⊢
    by_cases hm : mem = false
    · rw [if_pos hm] at h
      exact absurd h (by simp)
    · rw [if_neg hm]
      refine ⟨le_refl _, by show (0 : Int) ≤ MAX_WINDOWS - 1; decide,
        fun _ => ⟨rfl, _, rfl, by simp⟩, fun h => absurd h hn,
        by simp [windowManager.entries], by simp [windowManager.entries],
        by simp [windowManager.entries], ?_⟩
      intro arr harr u hu
      simp only [Option.some.injEq] at harr
      subst harr
      rw [List.eq_of_mem_replicate hu]
      rfl

theorem cacheInv_of_served (A : DoubleOps α) (fts : α → α → α) (mem : Bool)
    (wm : windowManager α) (frames : Int) (framerate : α) (r : Option (List α) × windowManager α)
    (hr : Served A fts mem wm frames framerate r) (h : CacheInv wm) : CacheInv r.2 := by
  cases hr with
  | hit u hfind => exact h
  | refused hfind => exact h
  | created w hfind hn hfull hsize hgen =>
    exact cacheInv_record wm h hn hfull w _ _ hsize (find?_size_none wm _ hfind)

/-- Every reachable manager state satisfies the cache invariant. -/
theorem cacheInv_of_reachable (A : DoubleOps α) (fts : α → α → α) (wm : windowManager α)
    (h : Reachable A fts wm) : CacheInv wm := by
  induction h with
  | init mem wm0 SamplesPerSec winType h => exact cacheInv_initWindows A mem wm0 _ _ h
  | step wm _ mem frames framerate ih =>
    exact cacheInv_of_served A fts mem wm frames framerate _
      (getWindowByLength_served A fts mem wm frames framerate) ih

theorem getWindowByLength_hit (A : DoubleOps α) (fts : α → α → α) (mem : Bool)
    (wm : windowManager α) (frames : Int) (framerate : α) (u : windowUnit α)
    (hfind : wm.entries.find?
      (fun u => decide (sampleCount A fts wm.SamplesPerSec frames framerate = u.size)) = some u) :
    getWindowByLength A fts mem wm frames framerate = (u.window, wm) := by
  unfold getWindowByLength
  dsimp only
  unfold sampleCount at hfind
  rw [hfind]

theorem getWindowByLength_miss (A : DoubleOps α) (fts : α → α → α) (mem : Bool)
    (wm : windowManager α) (frames : Int) (framerate : α)
    (hfind : wm.entries.find?
      (fun u => decide (sampleCount A fts wm.SamplesPerSec frames framerate = u.size)) = none) :
    getWindowByLength A fts mem wm frames framerate
      = CreateWindow A fts mem wm frames framerate := by
  unfold getWindowByLength
  dsimp only
  unfold sampleCount at hfind
  rw [hfind]

theorem find?_size_of_mem (l : List (windowUnit α)) (size : Int) (u : windowUnit α)
    (hu : u ∈ l) (hs : u.size = size) :
    ∃ v, l.find? (fun u => decide (size = u.size)) = some v ∧ v ∈ l ∧ v.size = size := by
  cases hf : l.find? (fun u => decide (size = u.size)) with
  | none =>
    have := List.find?_eq_none.1 hf u hu
    simp [hs] at this
  | some v =>
    have h1 := List.find?_some hf
    exact ⟨v, rfl, List.mem_of_find?_eq_some hf, (of_decide_eq_true h1).symm⟩

theorem getWindowByLength_hann_create (A : DoubleOps α) (fts : α → α → α) (mem : Bool)
    (wm : windowManager α) (frames : Int) (framerate : α) (w : List α)
    (hfind : wm.entries.find?
      (fun u => decide (sampleCount A fts wm.SamplesPerSec frames framerate = u.size)) = none)
    (hh : wm.winType = 'h') (hfull : wm.windowCount ≠ wm.MaxWindow)
    (hsize : sampleCount A fts wm.SamplesPerSec frames framerate ≠ 0)
    (hgen : hannWindow A mem (sampleCount A fts wm.SamplesPerSec frames framerate) = some w) :
    getWindowByLength A fts mem wm frames framerate
      = (some w, wm.record w (fts (A.ofInt frames) framerate)
          (sampleCount A fts wm.SamplesPerSec frames framerate)) := by
  rw [getWindowByLength_miss A fts mem wm frames framerate hfind]
  unfold CreateWindow
  unfold sampleCount at hsize hgen ⊢
  dsimp only
  rw [if_neg (by rw [hh]; decide), if_neg hfull, if_neg hsize, if_neg (by rw [hh]; decide),
    if_neg (by rw [hh]; decide), if_pos hh, hgen]
  rfl

/-- A concrete manager state to start from: all fields zero. -/
theorem reachable_example :
    Reachable floatOps (FramesToSeconds floatOps)
      (initWindows floatOps true
        { windowArray := none, windowCount := 0, MaxWindow := 0, SamplesPerSec := 0,
          winType := 'n' } 48000 'h').2 :=
  Reachable.init true _ 48000 'h' rfl

theorem sampleCount_zero_frames (R : DoubleOps ℝ) (hR : R.IsReal) (SamplesPerSec : Int)
    (framerate : ℝ) :
    sampleCount R (FramesToSeconds R) SamplesPerSec 0 framerate = 0 := by
  simp [sampleCount, FramesToSeconds, hR.floor, hR.mul, hR.div, hR.ofInt]

theorem sampleCount_example (R : DoubleOps ℝ) (hR : R.IsReal) (k : Int) (hk : k ≠ 0) :
    sampleCount R (FramesToSeconds R) 8 k (k : ℝ) = 8 := by
  have hk' : (k : ℝ) ≠ 0 := by exact_mod_cast hk
  simp only [sampleCount, FramesToSeconds, hR.floor, hR.mul, hR.div, hR.ofInt]
  rw [div_self hk', mul_one]
  exact Int.floor_intCast 8

theorem sampleCount_unit_rate (R : DoubleOps ℝ) (hR : R.IsReal) (k : Int) :
    sampleCount R (FramesToSeconds R) 1 k 1 = k := by
  simp only [sampleCount, FramesToSeconds, hR.floor, hR.mul, hR.div, hR.ofInt]
  rw [div_one, Int.cast_one, one_mul]
  exact Int.floor_intCast k

/-- The manager after `initWindows(wm, 8, 'h', config)` and one request of 60
frames at frame rate 60 (one second, 8 samples): one entry holding the Hann
window of length 8. -/
theorem hann_example_state (R : DoubleOps ℝ) (hR : R.IsReal) :
    getWindowByLength R (FramesToSeconds R) true
      (initWindows R true
        { windowArray := none, windowCount := 0, MaxWindow := 0, SamplesPerSec := 0,
          winType := 'n' } 8 'h').2 60 60
    = (some ((List.range 8).map (fun i => hannCoef R 8 (min (Int.ofNat i) (8 - 1 - Int.ofNat i)))),
       { windowArray := some
           ({ window := some ((List.range 8).map
                (fun i => hannCoef R 8 (min (Int.ofNat i) (8 - 1 - Int.ofNat i)))),
              seconds := FramesToSeconds R (R.ofInt 60) 60, size := 8, frames := 0 }
             :: List.replicate 99 (zeroUnit R))
         windowCount := 1
         MaxWindow := 99
         SamplesPerSec := 8
         winType := 'h' }) := by
  have hsz : sampleCount R (FramesToSeconds R) 8 60 60 = 8 := by
    have := sampleCount_example R hR 60 (by decide)
    simpa using this
  have hgen : hannWindow R true (sampleCount R (FramesToSeconds R) 8 60 60)
      = some ((List.range 8).map
          (fun i => hannCoef R 8 (min (Int.ofNat i) (8 - 1 - Int.ofNat i)))) := by
    rw [hsz]
    exact mirrored_cells_eq R (hannCoef R ((8 : Nat) : Int)) 8
  have hinit : (initWindows R true
        { windowArray := none, windowCount := 0, MaxWindow := 0, SamplesPerSec := 0,
          winType := 'n' } 8 'h').2
      = { windowArray := some (List.replicate 100 (zeroUnit R)), windowCount := 0,
          MaxWindow := 99, SamplesPerSec := 8, winType := 'h' } := rfl
  rw [hinit]
  have hfull : (0 : Int) ≠ 99 := by decide
  rw [getWindowByLength_hann_create R (FramesToSeconds R) true
    { windowArray := some (List.replicate 100 (zeroUnit R)), windowCount := 0,
      MaxWindow := 99, SamplesPerSec := 8, winType := 'h' } 60 60 _
    (by simp [windowManager.entries]) rfl hfull (by rw [hsz]; decide) hgen, hsz]
  rfl

/-- The cache can be filled: with sampling rate 1 and frame rate 1, requesting
1, 2, ..., `k` frames creates `k` Hann windows of sizes `1..k`. -/
theorem filled_cache_reachable (R : DoubleOps ℝ) (hR : R.IsReal) (k : Nat) (hk : k ≤ 99) :
    ∃ wm, Reachable R (FramesToSeconds R) wm ∧ wm.winType = 'h' ∧ wm.SamplesPerSec = 1 ∧
      wm.MaxWindow = 99 ∧ wm.windowCount = (k : Int) ∧
      ∀ u ∈ wm.entries, u.size ≤ (k : Int) := by
  induction k with
  | zero =>
    refine ⟨_, Reachable.init true
      { windowArray := none, windowCount := 0, MaxWindow := 0, SamplesPerSec := 0,
        winType := 'n' } 1 'h' rfl, rfl, rfl, rfl, rfl, ?_⟩
    intro u hu
    simp [windowManager.entries, initWindows] at hu
  | succ k ih =>
    obtain ⟨wm, hreach, hh, hsps, hmax, hcount, hsizes⟩ := ih (by omega)
    have hinv := cacheInv_of_reachable R (FramesToSeconds R) wm hreach
    have hsz : sampleCount R (FramesToSeconds R) wm.SamplesPerSec ((k + 1 : Nat) : Int) 1
        = ((k + 1 : Nat) : Int) := by
      rw [hsps]
      exact sampleCount_unit_rate R hR _
    have hfind : wm.entries.find?
        (fun u => decide
          (sampleCount R (FramesToSeconds R) wm.SamplesPerSec ((k + 1 : Nat) : Int) 1 = u.size))
        = none := by
      rw [List.find?_eq_none]
      intro u hu hd
      have h1 := hsizes u hu
      have h2 := of_decide_eq_true hd
      rw [hsz] at h2
      rw [← h2] at h1
      push_cast at h1
      omega
    have hgen := mirrored_cells_eq R (hannCoef R ((k + 1 : Nat) : Int)) (k + 1)
    have hstep := getWindowByLength_hann_create R (FramesToSeconds R) true wm
      ((k + 1 : Nat) : Int) 1 _ hfind hh (by rw [hcount, hmax]; omega)
      (by rw [hsz]; push_cast; omega) (by rw [hsz]; exact hgen)
    have hreach' := Reachable.step wm hreach true ((k + 1 : Nat) : Int) (1 : ℝ)
    rw [hstep] at hreach'
    obtain ⟨_, arr, harr, hlen⟩ := hinv.family (by rw [hh]; decide)
    have h3 : MAX_WINDOWS = 100 := rfl
    have hent := entries_record wm arr harr hinv.count_nonneg (by omega)
      ((List.range (k + 1)).map
        (fun i => hannCoef R ((k + 1 : Nat) : Int)
          (min (Int.ofNat i) (((k + 1 : Nat) : Int) - 1 - Int.ofNat i))))
      (FramesToSeconds R (R.ofInt ((k + 1 : Nat) : Int)) 1)
      (sampleCount R (FramesToSeconds R) wm.SamplesPerSec ((k + 1 : Nat) : Int) 1)
    refine ⟨_, hreach', hh, hsps, hmax, ?_, ?_⟩
    · show wm.windowCount + 1 = _
      rw [hcount]
      push_cast
      rfl
    · intro u hu
      rw [hent] at hu
      rcases List.mem_append.1 hu with hu | hu
      · have := hsizes u hu
        push_cast
        omega
      · rw [List.mem_singleton] at hu
        subst hu
        show sampleCount R (FramesToSeconds R) wm.SamplesPerSec ((k + 1 : Nat) : Int) 1 ≤ _
        rw [hsz]

/-! ## The claims -/

/-- C1. Cache idempotence: for every manager of family `'t'`, `'f'`, `'h'` or `'m'`
reached from `initWindows` by `getWindowByLength` calls, and two requests with
equal, non-zero sample counts, if the first `getWindowByLength` call returns a
window `w`, then the second call (on the manager left by the first) returns the
same `w`, which is the `window` field of a stored entry of that sample count, and
leaves the manager unchanged; this holds whether or not memory is available to
the second call (`mem2`), so no generator runs again. -/
theorem cache_idempotent (A : DoubleOps α) (fts : α → α → α) (wm : windowManager α)
    (h : Reachable A fts wm)
    (hfam : wm.winType = 't' ∨ wm.winType = 'f' ∨ wm.winType = 'h' ∨ wm.winType = 'm')
    (mem1 mem2 : Bool) (frames1 frames2 : Int) (framerate1 framerate2 : α)
    (heq : sampleCount A fts wm.SamplesPerSec frames1 framerate1
      = sampleCount A fts wm.SamplesPerSec frames2 framerate2)
    (hne : sampleCount A fts wm.SamplesPerSec frames1 framerate1 ≠ 0)
    (w : List α)
    (hfirst : (getWindowByLength A fts mem1 wm frames1 framerate1).1 = some w) :
    getWindowByLength A fts mem2 (getWindowByLength A fts mem1 wm frames1 framerate1).2
        frames2 framerate2
      = (some w, (getWindowByLength A fts mem1 wm frames1 framerate1).2) ∧
    ∃ u ∈ (getWindowByLength A fts mem1 wm frames1 framerate1).2.entries,
      u.window = some w ∧ u.size = sampleCount A fts wm.SamplesPerSec frames1 framerate1 := by
  have _ := hfam
  have _ := hne
  have hinv := cacheInv_of_reachable A fts wm h
  have hs := getWindowByLength_served A fts mem1 wm frames1 framerate1
  generalize getWindowByLength A fts mem1 wm frames1 framerate1 = r at hs hfirst ⊢
  cases hs with
  | hit u hfind =>
    have hfind2 := hfind
    rw [heq] at hfind2
    have hsecond := getWindowByLength_hit A fts mem2 wm frames2 framerate2 u hfind2
    have hu : u.window = some w := hfirst
    rw [hu] at hsecond
    have hp := List.find?_some hfind
    exact ⟨hsecond, u, List.mem_of_find?_eq_some hfind, hu, (of_decide_eq_true hp).symm⟩
  | refused hfind => exact absurd hfirst (by simp)
  | created w' hfind hn hfull hsize hgen =>
    have hw : w' = w := by simpa using hfirst
    subst hw
    obtain ⟨hmax, arr, harr, hlen⟩ := hinv.family hn
    have h1 := hinv.count_le
    have h2 := hinv.count_nonneg
    have h3 : MAX_WINDOWS = 100 := rfl
    have hlt : wm.windowCount.toNat < arr.length := by omega
    have hent := entries_record wm arr harr h2 hlt w' (fts (A.ofInt frames1) framerate1)
      (sampleCount A fts wm.SamplesPerSec frames1 framerate1)
    have hsps : (wm.record w' (fts (A.ofInt frames1) framerate1)
        (sampleCount A fts wm.SamplesPerSec frames1 framerate1)).SamplesPerSec
        = wm.SamplesPerSec := rfl
    refine ⟨?_, _, by rw [hent]; exact List.mem_append_right _ (List.mem_singleton_self _),
      rfl, rfl⟩
    have hfind2 : (wm.record w' (fts (A.ofInt frames1) framerate1)
        (sampleCount A fts wm.SamplesPerSec frames1 framerate1)).entries.find?
        (fun u => decide (sampleCount A fts (wm.record w' (fts (A.ofInt frames1) framerate1)
          (sampleCount A fts wm.SamplesPerSec frames1 framerate1)).SamplesPerSec
          frames2 framerate2 = u.size))
        = some { arr[wm.windowCount.toNat] with
            window := some w', seconds := fts (A.ofInt frames1) framerate1,
            size := sampleCount A fts wm.SamplesPerSec frames1 framerate1 } := by
      rw [hent, hsps, ← heq, List.find?_append, hfind]
      simp
    exact getWindowByLength_hit A fts mem2 _ frames2 framerate2 _ hfind2

/-- Instance of C1 over the reals: sampling rate 8, family `'h'`; 60 frames at rate
60 and 120 frames at rate 120 both give 8 samples, and the second request is
served from the cache even when no memory is available. -/
theorem cache_idempotent_witness :
    ∃ R : DoubleOps ℝ, R.IsReal ∧ ∃ w,
      getWindowByLength R (FramesToSeconds R) false
        (getWindowByLength R (FramesToSeconds R) true
          (initWindows R true
            { windowArray := none, windowCount := 0, MaxWindow := 0, SamplesPerSec := 0,
              winType := 'n' } 8 'h').2 60 60).2 120 120
      = (some w,
        (getWindowByLength R (FramesToSeconds R) true
          (initWindows R true
            { windowArray := none, windowCount := 0, MaxWindow := 0, SamplesPerSec := 0,
              winType := 'n' } 8 'h').2 60 60).2) :=
  DoubleOps.exists_isReal.elim fun R hR =>
    ⟨R, hR, _,
      (cache_idempotent R (FramesToSeconds R) _ (Reachable.init true _ 8 'h' rfl)
        (Or.inr (Or.inr (Or.inl rfl))) true false 60 120 60 120
        (by
          have h1 := sampleCount_example R hR 60 (by decide)
          have h2 := sampleCount_example R hR 120 (by decide)
          simp only [Int.cast_ofNat] at h1 h2
          exact h1.trans h2.symm)
        (by
          have h1 := sampleCount_example R hR 60 (by decide)
          simp only [Int.cast_ofNat] at h1
          rw [show (initWindows R true
            { windowArray := none, windowCount := 0, MaxWindow := 0, SamplesPerSec := 0,
              winType := 'n' } 8 'h').2.SamplesPerSec = 8 from rfl, h1]
          decide)
        _ (by rw [hann_example_state R hR])).1⟩

/-- C2. Uniqueness invariant: in every manager state reachable from `initWindows`
by any sequence of `getWindowByLength` calls, the stored entries
`windowArray[0..windowCount)` (there are exactly `windowCount` of them) have
pairwise distinct `size` values. -/
theorem cache_sizes_unique (A : DoubleOps α) (fts : α → α → α) (wm : windowManager α)
    (h : Reachable A fts wm) :
    wm.entries.length = wm.windowCount.toNat ∧ 0 ≤ wm.windowCount ∧
    wm.entries.Pairwise (fun u v => u.size ≠ v.size) ∧
    ∀ (i j : Nat) (u v : windowUnit α), i < j →
      wm.entries[i]? = some u → wm.entries[j]? = some v → u.size ≠ v.size := by
  have hinv := cacheInv_of_reachable A fts wm h
  refine ⟨entries_length wm hinv, hinv.count_nonneg, hinv.sizes, ?_⟩
  intro i j u v hij hu hv
  have hj : j < wm.entries.length := (List.getElem?_eq_some_iff.1 hv).1
  have hi : i < wm.entries.length := (List.getElem?_eq_some_iff.1 hu).1
  have := List.pairwise_iff_getElem.1 hinv.sizes i j hi hj hij
  rw [(List.getElem?_eq_some_iff.1 hu).2, (List.getElem?_eq_some_iff.1 hv).2] at this
  exact this

/-- Instance of C2: the state after `initWindows` and one request. -/
theorem cache_sizes_unique_witness :
    (getWindowByLength floatOps (FramesToSeconds floatOps) true
        (initWindows floatOps true
          { windowArray := none, windowCount := 0, MaxWindow := 0, SamplesPerSec := 0,
            winType := 'n' } 48000 'h').2 60 60).2.entries.Pairwise
      (fun u v => u.size ≠ v.size) :=
  (cache_sizes_unique floatOps (FramesToSeconds floatOps) _
    (Reachable.step _ reachable_example true 60 60)).2.2.1

/-- C3. Symmetry of the mirrored families: for `flattopWindow`, `hannWindow` and
`hammingWindow`, every length `N >= 2` and every index `i < N`, the generated
window has `N` coefficients and `w[i] = w[N-1-i]`. -/
theorem mirrored_windows_symmetric (A : DoubleOps α) (N i : Nat) (hN : 2 ≤ N) (hi : i < N) :
    (∃ w x, flattopWindow A true (N : Int) = some w ∧ w.length = N ∧
      w[i]? = some x ∧ w[N - 1 - i]? = some x) ∧
    (∃ w x, hannWindow A true (N : Int) = some w ∧ w.length = N ∧
      w[i]? = some x ∧ w[N - 1 - i]? = some x) ∧
    (∃ w x, hammingWindow A true (N : Int) = some w ∧ w.length = N ∧
      w[i]? = some x ∧ w[N - 1 - i]? = some x) :=
  have _ := hN
  ⟨mirrored_buffer_symm A _ N i hi, mirrored_buffer_symm A _ N i hi,
    mirrored_buffer_symm A _ N i hi⟩

/-- Instance of C3 at `N = 5`, `i = 1`, on machine floats. -/
theorem mirrored_windows_symmetric_witness :
    (∃ w x, flattopWindow floatOps true (5 : Nat) = some w ∧ w.length = 5 ∧
      w[1]? = some x ∧ w[5 - 1 - 1]? = some x) ∧
    (∃ w x, hannWindow floatOps true (5 : Nat) = some w ∧ w.length = 5 ∧
      w[1]? = some x ∧ w[5 - 1 - 1]? = some x) ∧
    (∃ w x, hammingWindow floatOps true (5 : Nat) = some w ∧ w.length = 5 ∧
      w[1]? = some x ∧ w[5 - 1 - 1]? = some x) :=
  mirrored_windows_symmetric floatOps 5 1 (by decide) (by decide)

/-- C4 (code at the failing input). Under the real-number reading, `tukeyWindow(4)`
has `w[1] = 1` and `w[4-1-1] = w[2] = 0`: the window is not symmetric for this
even length, because `M = (n-1)/2` is an integer division (`M = 1`, not `1.5`). -/
theorem tukeyWindow_four_asymmetric (R : DoubleOps ℝ) (hR : R.IsReal) :
    ∃ w, tukeyWindow R true ((4 : Nat) : Int) = some w ∧ w.length = 4 ∧
      w[1]? = some 1 ∧ w[4 - 1 - 1]? = some 0 := by
  obtain ⟨w, hw, hlen, hcells⟩ := tukeyWindow_cells R 4
  refine ⟨w, hw, hlen, ?_, ?_⟩
  · rw [hcells 1 (by decide), tukeyCoef_four_one R hR]
  · rw [hcells 2 (by decide), tukeyCoef_four_two R hR]

/-- Instance of the evaluation for C4 on the real-number arithmetic. -/
theorem tukeyWindow_four_asymmetric_witness :
    ∃ R : DoubleOps ℝ, R.IsReal ∧ ∃ w, tukeyWindow R true ((4 : Nat) : Int) = some w ∧
      w.length = 4 ∧ w[1]? = some 1 ∧ w[4 - 1 - 1]? = some 0 :=
  DoubleOps.exists_isReal.elim fun R hR => ⟨R, hR, tukeyWindow_four_asymmetric R hR⟩

/-- C5. Closed-form first half, mirrored second half, single midpoint: for
`flattopWindow`, `hannWindow` and `hammingWindow` and every `N >= 2`, the result has
exactly `N` coefficients, cell `i` holds the family's first-loop formula taken at
`min i (N-1-i)`, the loops assign the indices `0, 1, ..., N-1` once each (the
store log is exactly that list), and for odd `N` the midpoint cell holds the
formula value at `(N-1)/2`.  Under the real-number reading the three formulas
are the five-term cosine sum in `2*pi*k/(N-1)`, `0.5*(1 - cos(2*pi*(k+1)/(N+1)))`
and `0.54 - 0.46*cos(2*pi*k/(N-1))`. -/
theorem mirrored_windows_closed_form (A : DoubleOps α) (N : Nat) (hN : 2 ≤ N) :
    (∃ b, flattopBuffer A true (N : Int) = some b ∧
      flattopWindow A true (N : Int) = some b.cells ∧ b.cells.length = N ∧
      (∀ i, i < N →
        b.cells[i]? = some (flattopCoef A N (min (i : Int) ((N : Int) - 1 - (i : Int))))) ∧
      b.stores = (List.range N).map Int.ofNat ∧
      (N % 2 = 1 → b.cells[(N - 1) / 2]? = some (flattopCoef A N (Int.ofNat ((N - 1) / 2))))) ∧
    (∃ b, hannBuffer A true (N : Int) = some b ∧
      hannWindow A true (N : Int) = some b.cells ∧ b.cells.length = N ∧
      (∀ i, i < N →
        b.cells[i]? = some (hannCoef A N (min (i : Int) ((N : Int) - 1 - (i : Int))))) ∧
      b.stores = (List.range N).map Int.ofNat ∧
      (N % 2 = 1 → b.cells[(N - 1) / 2]? = some (hannCoef A N (Int.ofNat ((N - 1) / 2))))) ∧
    (∃ b, hammingBuffer A true (N : Int) = some b ∧
      hammingWindow A true (N : Int) = some b.cells ∧ b.cells.length = N ∧
      (∀ i, i < N →
        b.cells[i]? = some (hammingCoef A N (min (i : Int) ((N : Int) - 1 - (i : Int))))) ∧
      b.stores = (List.range N).map Int.ofNat ∧
      (N % 2 = 1 → b.cells[(N - 1) / 2]? = some (hammingCoef A N (Int.ofNat ((N - 1) / 2))))) ∧
    (∀ R : DoubleOps ℝ, R.IsReal → ∀ k : Int,
      flattopCoef R N k
        = 0.21557895 - 0.41663158 * Real.cos (2 * Real.pi * k / (N - 1))
          + 0.277263158 * Real.cos (2 * (2 * Real.pi * k / (N - 1)))
          - 0.083578947 * Real.cos (3 * (2 * Real.pi * k / (N - 1)))
          + 0.006947368 * Real.cos (4 * (2 * Real.pi * k / (N - 1))) ∧
      hannCoef R N k = 0.5 * (1 - Real.cos (2 * Real.pi * (k + 1) / (N + 1))) ∧
      hammingCoef R N k = 0.54 - 0.46 * Real.cos (2 * Real.pi * k / (N - 1))) := by
  have _ := hN
  refine ⟨?_, ?_, ?_, ?_⟩
  · obtain ⟨b, hb, hlen, hcells, hst⟩ := mirrored_buffer_spec A (flattopCoef A N) N
    exact ⟨b, hb, by rw [flattopWindow, flattopBuffer, hb]; rfl, hlen, hcells, hst,
      mirrored_buffer_midpoint _ N b hcells⟩
  · obtain ⟨b, hb, hlen, hcells, hst⟩ := mirrored_buffer_spec A (hannCoef A N) N
    exact ⟨b, hb, by rw [hannWindow, hannBuffer, hb]; rfl, hlen, hcells, hst,
      mirrored_buffer_midpoint _ N b hcells⟩
  · obtain ⟨b, hb, hlen, hcells, hst⟩ := mirrored_buffer_spec A (hammingCoef A N) N
    exact ⟨b, hb, by rw [hammingWindow, hammingBuffer, hb]; rfl, hlen, hcells, hst,
      mirrored_buffer_midpoint _ N b hcells⟩
  · intro R hR k
    have h1 := flattopCoef_real R hR N k
    have h2 := hannCoef_real R hR N k
    have h3 := hammingCoef_real R hR N k
    simp only [Int.cast_natCast] at h1 h2 h3
    exact ⟨h1, h2, h3⟩

/-- Instance of C5 at `N = 5` (the Hann part), on machine floats. -/
theorem mirrored_windows_closed_form_witness :
    ∃ b, hannBuffer floatOps true ((5 : Nat) : Int) = some b ∧
      hannWindow floatOps true ((5 : Nat) : Int) = some b.cells ∧ b.cells.length = 5 ∧
      (∀ i : Nat, i < 5 → b.cells[i]?
        = some (hannCoef floatOps (5 : Nat) (min (i : Int) (((5 : Nat) : Int) - 1 - (i : Int))))) ∧
      b.stores = (List.range 5).map Int.ofNat ∧
      (5 % 2 = 1 → b.cells[(5 - 1) / 2]?
        = some (hannCoef floatOps (5 : Nat) (Int.ofNat ((5 - 1) / 2)))) :=
  (mirrored_windows_closed_form floatOps 5 (by decide)).2.1

/-- C6 (code at the failing input). Under the real-number reading, `tukeyWindow(4)`
stores `0` at index 2, while the spec's formula with the real midpoint
`M = (4-1)/2 = 1.5` gives `1` there. -/
theorem tukeyWindow_four_not_closed_form (R : DoubleOps ℝ) (hR : R.IsReal) :
    ∃ w, tukeyWindow R true ((4 : Nat) : Int) = some w ∧
      w[2]? = some 0 ∧ tukeySpec R 4 2 = 1 := by
  obtain ⟨w, hw, _, hcells⟩ := tukeyWindow_cells R 4
  exact ⟨w, hw, by rw [hcells 2 (by decide), tukeyCoef_four_two R hR], tukeySpec_four_two R hR⟩

/-- Instance of the evaluation for C6 on the real-number arithmetic. -/
theorem tukeyWindow_four_not_closed_form_witness :
    ∃ R : DoubleOps ℝ, R.IsReal ∧ ∃ w, tukeyWindow R true ((4 : Nat) : Int) = some w ∧
      w[2]? = some 0 ∧ tukeySpec R 4 2 = 1 :=
  DoubleOps.exists_isReal.elim fun R hR => ⟨R, hR, tukeyWindow_four_not_closed_form R hR⟩

/-- C7 (code at the failing input). Under the real-number reading: after
`initWindows(wm, 8, 'h', config)` and `getWindowByLength(wm, 60, 60.0)`, which
creates and returns the Hann window `w` of 8 samples, `CalculateCorrectionFactor(wm, 60)`
returns `1`, whereas `8 / sum(w)` is not `1`: no stored entry has its `frames`
field set, so the lookup by frame count finds nothing. -/
theorem correction_factor_hann_eight (R : DoubleOps ℝ) (hR : R.IsReal) :
    ∃ w, (getWindowByLength R (FramesToSeconds R) true
        (initWindows R true
          { windowArray := none, windowCount := 0, MaxWindow := 0, SamplesPerSec := 0,
            winType := 'n' } 8 'h').2 60 60).1 = some w ∧
      w.length = 8 ∧
      CalculateCorrectionFactor R
        (getWindowByLength R (FramesToSeconds R) true
          (initWindows R true
            { windowArray := none, windowCount := 0, MaxWindow := 0, SamplesPerSec := 0,
              winType := 'n' } 8 'h').2 60 60).2 60 = 1 ∧
      (8 : ℝ) / w.sum ≠ 1 := by
  rw [hann_example_state R hR]
  refine ⟨_, rfl, by simp, ?_, ?_⟩
  · simp [CalculateCorrectionFactor, windowManager.entries, hR.ofInt]
  · have h0 := hannCoef_eight_zero_lt_one R hR
    have h1 := hannCoef_le_one R hR 8 1
    have h2 := hannCoef_le_one R hR 8 2
    have h3 := hannCoef_le_one R hR 8 3
    have hsum : ((List.range 8).map
        (fun i => hannCoef R 8 (min (Int.ofNat i) (8 - 1 - Int.ofNat i)))).sum
        = 2 * (hannCoef R 8 0 + hannCoef R 8 1 + hannCoef R 8 2 + hannCoef R 8 3) := by
      simp [List.range_succ]
      ring
    rw [hsum]
    intro hdiv
    have hne : 2 * (hannCoef R 8 0 + hannCoef R 8 1 + hannCoef R 8 2 + hannCoef R 8 3) ≠ 0 := by
      intro hz
      rw [hz] at hdiv
      norm_num at hdiv
    rw [div_eq_one_iff_eq hne] at hdiv
    linarith

/-- Instance of the evaluation for C7 on the real-number arithmetic. -/
theorem correction_factor_hann_eight_witness :
    ∃ R : DoubleOps ℝ, R.IsReal ∧
      CalculateCorrectionFactor R
        (getWindowByLength R (FramesToSeconds R) true
          (initWindows R true
            { windowArray := none, windowCount := 0, MaxWindow := 0, SamplesPerSec := 0,
              winType := 'n' } 8 'h').2 60 60).2 60 = 1 :=
  DoubleOps.exists_isReal.elim fun R hR =>
    ⟨R, hR, (correction_factor_hann_eight R hR).elim fun _ h => h.2.2.1⟩

/-- C8. Amplitude correction table: `CompensateValueForWindow(v, c)` returns
`v*1.2122` for `'t'`, `v*4.63899` for `'f'`, `v*1.99986` for `'h'`, `v*1.85196` for
`'m'`, and `v` unchanged for `'n'` and for every other character; under the
real-number reading, value `10.0` with `'h'` gives `19.9986` and with `'n'` gives
`10.0`. -/
theorem amplitude_correction_table (A : DoubleOps α) (v : α) :
    CompensateValueForWindow A v 't' = A.mul v (A.lit 12122 4) ∧
    CompensateValueForWindow A v 'f' = A.mul v (A.lit 463899 5) ∧
    CompensateValueForWindow A v 'h' = A.mul v (A.lit 199986 5) ∧
    CompensateValueForWindow A v 'm' = A.mul v (A.lit 185196 5) ∧
    CompensateValueForWindow A v 'n' = v ∧
    (∀ c : Char, c ≠ 't' → c ≠ 'f' → c ≠ 'h' → c ≠ 'm' → CompensateValueForWindow A v c = v) ∧
    (∀ R : DoubleOps ℝ, R.IsReal → ∀ x : ℝ,
      CompensateValueForWindow R x 't' = x * 1.2122 ∧
      CompensateValueForWindow R x 'f' = x * 4.63899 ∧
      CompensateValueForWindow R x 'h' = x * 1.99986 ∧
      CompensateValueForWindow R x 'm' = x * 1.85196 ∧
      CompensateValueForWindow R 10 'h' = 19.9986 ∧
      CompensateValueForWindow R 10 'n' = 10) := by
  refine ⟨rfl, rfl, rfl, rfl, rfl, ?_, ?_⟩
  · intro c ht hf hh hm
    unfold CompensateValueForWindow
    simp [ht, hf, hh, hm]
  · intro R hR x
    refine ⟨?_, ?_, ?_, ?_, ?_, rfl⟩
    · show R.mul x (R.lit 12122 4) = _
      rw [hR.mul, hR.lit]; norm_num
    · show R.mul x (R.lit 463899 5) = _
      rw [hR.mul, hR.lit]; norm_num
    · show R.mul x (R.lit 199986 5) = _
      rw [hR.mul, hR.lit]; norm_num
    · show R.mul x (R.lit 185196 5) = _
      rw [hR.mul, hR.lit]; norm_num
    · show R.mul 10 (R.lit 199986 5) = _
      rw [hR.mul, hR.lit]; norm_num

/-- C9. Capacity bound: in every manager state reachable from `initWindows` with a
family other than `'n'`, `windowCount <= MaxWindow = MAX_WINDOWS - 1 = 99` and the
slot array has `MAX_WINDOWS = 100` slots, so slot `windowCount` exists; and when
`windowCount = MaxWindow`, a request whose sample count matches no stored entry
returns no window and leaves the manager unchanged, while a request whose sample
count is stored returns the stored window, also leaving the manager unchanged. -/
theorem cache_capacity_bound (A : DoubleOps α) (fts : α → α → α) (wm : windowManager α)
    (h : Reachable A fts wm) (hn : wm.winType ≠ 'n') :
    (0 ≤ wm.windowCount ∧ wm.windowCount ≤ wm.MaxWindow ∧
      wm.MaxWindow = MAX_WINDOWS - 1 ∧ MAX_WINDOWS - 1 = 99 ∧
      ∃ arr, wm.windowArray = some arr ∧ arr.length = 100 ∧
        wm.windowCount.toNat < arr.length) ∧
    (wm.windowCount = wm.MaxWindow →
      ∀ (mem : Bool) (frames : Int) (framerate : α),
        ((∀ u ∈ wm.entries, u.size ≠ sampleCount A fts wm.SamplesPerSec frames framerate) →
          getWindowByLength A fts mem wm frames framerate = (none, wm)) ∧
        ((∃ u ∈ wm.entries, u.size = sampleCount A fts wm.SamplesPerSec frames framerate) →
          ∃ v w, v ∈ wm.entries ∧
            v.size = sampleCount A fts wm.SamplesPerSec frames framerate ∧
            v.window = some w ∧
            getWindowByLength A fts mem wm frames framerate = (some w, wm))) := by
  have hinv := cacheInv_of_reachable A fts wm h
  obtain ⟨hmax, arr, harr, hlen⟩ := hinv.family hn
  have h1 := hinv.count_le
  have h2 := hinv.count_nonneg
  have h3 : MAX_WINDOWS = 100 := rfl
  refine ⟨⟨h2, h1, hmax, by decide, arr, harr, by rw [hlen, h3]; rfl, by omega⟩, ?_⟩
  intro hfull mem frames framerate
  constructor
  · intro hmiss
    have hfind : wm.entries.find?
        (fun u => decide (sampleCount A fts wm.SamplesPerSec frames framerate = u.size))
        = none := by
      rw [List.find?_eq_none]
      intro u hu hd
      exact hmiss u hu (of_decide_eq_true hd).symm
    rw [getWindowByLength_miss A fts mem wm frames framerate hfind]
    unfold CreateWindow
    rw [if_neg hn, if_pos hfull]
  · rintro ⟨u, hu, hs⟩
    obtain ⟨v, hfind, hv, hvs⟩ := find?_size_of_mem wm.entries _ u hu hs
    have hw := hinv.window_ne_null v hv
    obtain ⟨w, hw⟩ := Option.ne_none_iff_exists'.1 hw
    exact ⟨v, w, hv, hvs, hw, by rw [getWindowByLength_hit A fts mem wm frames framerate v hfind, hw]⟩

/-- Instance of C9 over the reals: a reachable full cache (99 Hann windows of sizes
1 to 99) refuses a request for a 100th length and stays unchanged. -/
theorem cache_capacity_bound_witness :
    ∃ (R : DoubleOps ℝ) (wm : windowManager ℝ), R.IsReal ∧
      Reachable R (FramesToSeconds R) wm ∧ wm.winType = 'h' ∧
      wm.windowCount = wm.MaxWindow ∧ wm.MaxWindow = 99 ∧
      getWindowByLength R (FramesToSeconds R) true wm 100 1 = (none, wm) :=
  DoubleOps.exists_isReal.elim fun R hR =>
    (filled_cache_reachable R hR 99 (le_refl 99)).elim fun wm h =>
      ⟨R, wm, hR, h.1, h.2.1, by rw [h.2.2.2.2.1, h.2.2.2.1]; rfl, h.2.2.2.1,
        ((cache_capacity_bound R (FramesToSeconds R) wm h.1 (by rw [h.2.1]; decide)).2
          (by rw [h.2.2.2.2.1, h.2.2.2.1]; rfl) true 100 1).1
          (by
            intro u hu he
            have h1 := h.2.2.2.2.2 u hu
            rw [he, h.2.2.1, sampleCount_unit_rate R hR 100] at h1
            exact absurd h1 (by decide))⟩

/-- C10. Degenerate length: for every manager reached from `initWindows` by
`getWindowByLength` calls and every request whose sample count
`floor(SamplesPerSec * FramesToSeconds(frames, framerate))` is 0,
`getWindowByLength` returns no window and leaves the manager unchanged (no entry
is created); no stored entry has `size = 0`.  With the spec's
`seconds = frames / frameRate`, read over the reals, `frames = 0` at frame rate 60
and sampling rate 48000 is such a request. -/
theorem degenerate_length_no_window (A : DoubleOps α) (fts : α → α → α) (wm : windowManager α)
    (h : Reachable A fts wm) :
    (∀ (mem : Bool) (frames : Int) (framerate : α),
      sampleCount A fts wm.SamplesPerSec frames framerate = 0 →
      getWindowByLength A fts mem wm frames framerate = (none, wm)) ∧
    (∀ u ∈ wm.entries, u.size ≠ 0) ∧
    (∀ R : DoubleOps ℝ, R.IsReal →
      sampleCount R (FramesToSeconds R) 48000 0 60 = 0) := by
  have hinv := cacheInv_of_reachable A fts wm h
  refine ⟨?_, hinv.size_ne_zero, fun R hR => sampleCount_zero_frames R hR 48000 60⟩
  intro mem frames framerate hz
  have hfind : wm.entries.find?
      (fun u => decide (sampleCount A fts wm.SamplesPerSec frames framerate = u.size))
      = none := by
    rw [List.find?_eq_none]
    intro u hu hd
    exact hinv.size_ne_zero u hu (by rw [← of_decide_eq_true hd, hz])
  rw [getWindowByLength_miss A fts mem wm frames framerate hfind]
  unfold CreateWindow
  unfold sampleCount at hz
  dsimp only
  rw [if_pos hz]
  simp

/-- Instance of C10 over the reals: 0 frames at frame rate 60 and sampling rate
48000 get no window and leave the manager unchanged. -/
theorem degenerate_length_no_window_witness :
    ∃ R : DoubleOps ℝ, R.IsReal ∧
      getWindowByLength R (FramesToSeconds R) true
        (initWindows R true
          { windowArray := none, windowCount := 0, MaxWindow := 0, SamplesPerSec := 0,
            winType := 'n' } 48000 'h').2 0 60
      = (none,
        (initWindows R true
          { windowArray := none, windowCount := 0, MaxWindow := 0, SamplesPerSec := 0,
            winType := 'n' } 48000 'h').2) :=
  DoubleOps.exists_isReal.elim fun R hR =>
    ⟨R, hR,
      (degenerate_length_no_window R (FramesToSeconds R) _
        (Reachable.init true _ 48000 'h' rfl)).1 true 0 60
        (sampleCount_zero_frames R hR _ 60)⟩

/-! ## More on the window cache -/

theorem record_frame (wm : windowManager α) (w : List α) (seconds : α) (size : Int) :
    (wm.record w seconds size).winType = wm.winType ∧
    (wm.record w seconds size).SamplesPerSec = wm.SamplesPerSec ∧
    (wm.record w seconds size).MaxWindow = wm.MaxWindow ∧
    (wm.record w seconds size).windowCount = wm.windowCount + 1 :=
  ⟨rfl, rfl, rfl, rfl⟩

/-- A manager whose selector is none of `'t'`, `'f'`, `'h'`, `'m'` never stores an entry. -/
theorem windowCount_zero_of_unknown (A : DoubleOps α) (fts : α → α → α) (wm : windowManager α)
    (h : Reachable A fts wm)
    (hfam : wm.winType ≠ 't' ∧ wm.winType ≠ 'f' ∧ wm.winType ≠ 'h' ∧ wm.winType ≠ 'm') :
    wm.windowCount = 0 := by
  induction h with
  | init mem wm0 SamplesPerSec winType h =>
    unfold initWindows at h ⊢
    dsimp only at h ⊢
    by_cases hn : winType = 'n'
    · rw [if_pos hn]
    · rw [if_neg hn] at h ⊢
      by_cases hm : mem = false
      · rw [if_pos hm] at h
        exact absurd h (by simp)
      · rw [if_neg hm]
  | step wm _ mem frames framerate ih =>
    have hs := getWindowByLength_served A fts mem wm frames framerate
    generalize getWindowByLength A fts mem wm frames framerate = r at hs hfam ⊢
    cases hs with
    | hit u hfind => exact ih hfam
    | refused hfind => exact ih hfam
    | created w hfind hn hfull hsize hgen =>
      have hw : wm.winType ≠ 't' ∧ wm.winType ≠ 'f' ∧ wm.winType ≠ 'h' ∧ wm.winType ≠ 'm' :=
        hfam
      rcases hgen with h | h | h | h
      · exact absurd h.1 hw.1
      · exact absurd h.1 hw.2.1
      · exact absurd h.1 hw.2.2.1
      · exact absurd h.1 hw.2.2.2

theorem initWindows_winType (A : DoubleOps α) (mem : Bool) (wm0 : windowManager α)
    (SamplesPerSec : Int) (winType : Char)
    (h : (initWindows A mem wm0 SamplesPerSec winType).1 = 1) :
    (initWindows A mem wm0 SamplesPerSec winType).2.winType = winType := by
  unfold initWindows at h ⊢
  dsimp only at h ⊢
  by_cases hn : winType = 'n'
  · rw [if_pos hn, hn]
  · rw [if_neg hn] at h ⊢
    by_cases hm : mem = false
    · rw [if_pos hm] at h
      exact absurd h (by simp)
    · rw [if_neg hm]

/-- C11. No window for family None or an unknown selector: a successful
`initWindows` leaves `winType` equal to the selector it was given, and in every
manager state reached from it whose selector is `'n'` or any character other than
`'t'`, `'f'`, `'h'`, `'m'`, `windowCount` is 0, the entry list is empty and every
`getWindowByLength` call returns no window and leaves the manager unchanged. -/
theorem no_window_for_unknown_family (A : DoubleOps α) (fts : α → α → α) (wm : windowManager α)
    (h : Reachable A fts wm)
    (hfam : wm.winType ≠ 't' ∧ wm.winType ≠ 'f' ∧ wm.winType ≠ 'h' ∧ wm.winType ≠ 'm') :
    wm.windowCount = 0 ∧ wm.entries = [] ∧
    (∀ (mem : Bool) (frames : Int) (framerate : α),
      getWindowByLength A fts mem wm frames framerate = (none, wm)) ∧
    (∀ (mem : Bool) (wm0 : windowManager α) (SamplesPerSec : Int) (c : Char),
      (initWindows A mem wm0 SamplesPerSec c).1 = 1 →
      (initWindows A mem wm0 SamplesPerSec c).2.winType = c) := by
  have hc := windowCount_zero_of_unknown A fts wm h hfam
  have he : wm.entries = [] := by simp [windowManager.entries, hc]
  refine ⟨hc, he, ?_, fun mem wm0 sps c hs => initWindows_winType A mem wm0 sps c hs⟩
  intro mem frames framerate
  have hs := getWindowByLength_served A fts mem wm frames framerate
  generalize getWindowByLength A fts mem wm frames framerate = r at hs ⊢
  cases hs with
  | hit u hfind =>
    rw [he] at hfind
    simp at hfind
  | refused hfind => rfl
  | created w hfind hn hfull hsize hgen =>
    rcases hgen with h | h | h | h
    · exact absurd h.1 hfam.1
    · exact absurd h.1 hfam.2.1
    · exact absurd h.1 hfam.2.2.1
    · exact absurd h.1 hfam.2.2.2

/-- Instance of C11: selector `'x'` at sampling rate 48000, on machine floats: a
request of 60 frames at rate 60 gets no window. -/
theorem no_window_for_unknown_family_witness :
    getWindowByLength floatOps (FramesToSeconds floatOps) true
      (initWindows floatOps true
        { windowArray := none, windowCount := 0, MaxWindow := 0, SamplesPerSec := 0,
          winType := 'n' } 48000 'x').2 60 60
    = (none,
      (initWindows floatOps true
        { windowArray := none, windowCount := 0, MaxWindow := 0, SamplesPerSec := 0,
          winType := 'n' } 48000 'x').2) :=
  (no_window_for_unknown_family floatOps (FramesToSeconds floatOps) _
    (Reachable.init true _ 48000 'x' rfl) (by decide)).2.2.1 true 60 60

theorem entries_subset_array (wm : windowManager α) (arr : List (windowUnit α))
    (harr : wm.windowArray = some arr) : ∀ u ∈ wm.entries, u ∈ arr := by
  intro u hu
  simp only [windowManager.entries, harr, Option.getD_some] at hu
  exact List.mem_of_mem_take hu

theorem entries_frames_zero (wm : windowManager α) (h : CacheInv wm) :
    ∀ u ∈ wm.entries, u.frames = 0 := by
  intro u hu
  cases harr : wm.windowArray with
  | none => simp [windowManager.entries, harr] at hu
  | some arr => exact h.frames_zero arr harr u (entries_subset_array wm arr harr u hu)

theorem correctionFactor_of_no_match (A : DoubleOps α) (wm : windowManager α) (frames : Int)
    (h : ∀ u ∈ wm.entries, u.frames ≠ frames) :
    CalculateCorrectionFactor A wm frames = A.ofInt 1 := by
  have hfind : wm.entries.find? (fun u => decide (frames = u.frames)) = none := by
    rw [List.find?_eq_none]
    intro u hu hd
    exact h u hu (of_decide_eq_true hd).symm
  unfold CalculateCorrectionFactor
  rw [hfind]

/-- C16. Energy correction is a no-op in practice: in every manager state reachable
from `initWindows` by `getWindowByLength` calls no stored entry has a non-zero
`frames` field, so `CalculateCorrectionFactor(wm, frames)` returns exactly 1 for
every `frames != 0`; it also returns 1, for every `frames`, whenever the manager
has no entries. -/
theorem correction_factor_noop (A : DoubleOps α) (fts : α → α → α) (wm : windowManager α)
    (h : Reachable A fts wm) :
    (∀ u ∈ wm.entries, u.frames = 0) ∧
    (∀ frames : Int, frames ≠ 0 → CalculateCorrectionFactor A wm frames = A.ofInt 1) ∧
    (wm.entries = [] → ∀ frames : Int, CalculateCorrectionFactor A wm frames = A.ofInt 1) := by
  have hz := entries_frames_zero wm (cacheInv_of_reachable A fts wm h)
  refine ⟨hz, ?_, ?_⟩
  · intro frames hf
    apply correctionFactor_of_no_match
    intro u hu he
    exact hf (by rw [← he, hz u hu])
  · intro he frames
    apply correctionFactor_of_no_match
    intro u hu
    rw [he] at hu
    simp at hu

/-- Instance of C16 over the reals: with the 8-sample Hann window cached (sampling
rate 8, 60 frames at rate 60), the factor for 120 frames is 1. -/
theorem correction_factor_noop_witness :
    ∃ R : DoubleOps ℝ, R.IsReal ∧
      CalculateCorrectionFactor R
        (getWindowByLength R (FramesToSeconds R) true
          (initWindows R true
            { windowArray := none, windowCount := 0, MaxWindow := 0, SamplesPerSec := 0,
              winType := 'n' } 8 'h').2 60 60).2 120 = R.ofInt 1 :=
  DoubleOps.exists_isReal.elim fun R hR =>
    ⟨R, hR, (correction_factor_noop R (FramesToSeconds R) _
      (Reachable.step _ (Reachable.init true _ 8 'h' rfl) true 60 60)).2.1 120 (by decide)⟩

/-- C17. Append-only frame: for every manager and every request,
`getWindowByLength` leaves `winType`, `SamplesPerSec` and `MaxWindow` unchanged;
and for every manager reached from `initWindows` the entry list before the call
is a prefix of the entry list after it, which is either the same list or one
entry longer, the latter exactly when no stored entry has the request's sample
count and a window is returned (a new window was created). -/
theorem getWindowByLength_append_only (A : DoubleOps α) (fts : α → α → α) (mem : Bool)
    (wm : windowManager α) (frames : Int) (framerate : α) :
    ((getWindowByLength A fts mem wm frames framerate).2.winType = wm.winType ∧
      (getWindowByLength A fts mem wm frames framerate).2.SamplesPerSec = wm.SamplesPerSec ∧
      (getWindowByLength A fts mem wm frames framerate).2.MaxWindow = wm.MaxWindow) ∧
    (Reachable A fts wm →
      wm.entries <+: (getWindowByLength A fts mem wm frames framerate).2.entries ∧
      ((getWindowByLength A fts mem wm frames framerate).2.entries = wm.entries ∨
        ∃ u, (getWindowByLength A fts mem wm frames framerate).2.entries = wm.entries ++ [u]) ∧
      ((getWindowByLength A fts mem wm frames framerate).2.entries.length
          = wm.entries.length + 1 ↔
        ((∀ u ∈ wm.entries, u.size ≠ sampleCount A fts wm.SamplesPerSec frames framerate) ∧
          (getWindowByLength A fts mem wm frames framerate).1 ≠ none))) := by
  have hs := getWindowByLength_served A fts mem wm frames framerate
  generalize getWindowByLength A fts mem wm frames framerate = r at hs ⊢
  cases hs with
  | hit u hfind =>
    refine ⟨⟨rfl, rfl, rfl⟩, fun _ => ⟨List.prefix_refl _, Or.inl rfl, ?_⟩⟩
    constructor
    · intro hlen
      simp at hlen
    · rintro ⟨hmiss, _⟩
      have hp := List.find?_some hfind
      exact absurd (of_decide_eq_true hp).symm (hmiss u (List.mem_of_find?_eq_some hfind))
  | refused hfind =>
    refine ⟨⟨rfl, rfl, rfl⟩, fun _ => ⟨List.prefix_refl _, Or.inl rfl, ?_⟩⟩
    constructor
    · intro hlen
      simp at hlen
    · rintro ⟨_, hne⟩
      exact absurd rfl hne
  | created w hfind hn hfull hsize hgen =>
    refine ⟨⟨rfl, rfl, rfl⟩, fun hreach => ?_⟩
    have hinv := cacheInv_of_reachable A fts wm hreach
    obtain ⟨hmax, arr, harr, hlen⟩ := hinv.family hn
    have h1 := hinv.count_le
    have h2 := hinv.count_nonneg
    have h3 : MAX_WINDOWS = 100 := rfl
    have hent := entries_record wm arr harr h2 (by omega) w (fts (A.ofInt frames) framerate)
      (sampleCount A fts wm.SamplesPerSec frames framerate)
    refine ⟨?_, Or.inr ⟨_, hent⟩, ?_⟩
    · show wm.entries <+: (wm.record w _ _).entries
      rw [hent]
      exact List.prefix_append _ _
    · constructor
      · intro _
        exact ⟨find?_size_none wm _ hfind, by simp⟩
      · intro _
        show (wm.record w _ _).entries.length = _
        rw [hent]
        simp

/-- Instance of C17 over the reals: the first request on a fresh Hann manager
(sampling rate 8, 60 frames at rate 60) appends exactly one entry. -/
theorem getWindowByLength_append_only_witness :
    ∃ R : DoubleOps ℝ, R.IsReal ∧
      (getWindowByLength R (FramesToSeconds R) true
        (initWindows R true
          { windowArray := none, windowCount := 0, MaxWindow := 0, SamplesPerSec := 0,
            winType := 'n' } 8 'h').2 60 60).2.entries.length
      = (initWindows R true
          { windowArray := none, windowCount := 0, MaxWindow := 0, SamplesPerSec := 0,
            winType := 'n' } 8 'h').2.entries.length + 1 :=
  DoubleOps.exists_isReal.elim fun R hR =>
    ⟨R, hR,
      ((getWindowByLength_append_only R (FramesToSeconds R) true
        (initWindows R true
          { windowArray := none, windowCount := 0, MaxWindow := 0, SamplesPerSec := 0,
            winType := 'n' } 8 'h').2 60 60).2 (Reachable.init true _ 8 'h' rfl)).2.2.2
        ⟨by intro u hu; simp [windowManager.entries, initWindows] at hu,
          by rw [hann_example_state R hR]; simp⟩⟩

theorem calloc_eq_some (A : DoubleOps α) (mem : Bool) (n : Int) (b : Buffer α)
    (h : calloc A mem n = some b) : mem = true ∧ 0 ≤ n := by
  unfold calloc at h
  by_cases hc : mem = true ∧ 0 ≤ n
  · exact hc
  · rw [if_neg hc] at h
    exact absurd h (by simp)

/-- Each of the four generators, when it returns a buffer, was given a non-negative
length and returns exactly that many coefficients. -/
theorem generator_length (A : DoubleOps α) (mem : Bool) (n : Int) (w : List α)
    (h : tukeyWindow A mem n = some w ∨ flattopWindow A mem n = some w ∨
      hannWindow A mem n = some w ∨ hammingWindow A mem n = some w) :
    0 ≤ n ∧ (w.length : Int) = n := by
  have hcal : ∃ b, calloc A mem n = some b := by
    cases hc : calloc A mem n with
    | some b => exact ⟨b, rfl⟩
    | none =>
      exfalso
      rcases h with h | h | h | h
      · simp [tukeyWindow, tukeyBuffer, hc] at h
      · simp [flattopWindow, flattopBuffer, hc] at h
      · simp [hannWindow, hannBuffer, hc] at h
      · simp [hammingWindow, hammingBuffer, hc] at h
  obtain ⟨b, hb⟩ := hcal
  obtain ⟨hmem, hn⟩ := calloc_eq_some A mem n b hb
  refine ⟨hn, ?_⟩
  obtain ⟨N, rfl⟩ : ∃ N : Nat, n = (N : Int) := ⟨n.toNat, (Int.toNat_of_nonneg hn).symm⟩
  subst hmem
  rcases h with h | h | h | h
  · obtain ⟨w', hw', hlen, _⟩ := tukeyWindow_cells A N
    rw [hw', Option.some.injEq] at h
    rw [← h, hlen]
  · have := mirrored_cells_eq A (flattopCoef A (N : Int)) N
    rw [show flattopWindow A true (N : Int) = _ from this, Option.some.injEq] at h
    rw [← h]
    simp
  · have := mirrored_cells_eq A (hannCoef A (N : Int)) N
    rw [show hannWindow A true (N : Int) = _ from this, Option.some.injEq] at h
    rw [← h]
    simp
  · have := mirrored_cells_eq A (hammingCoef A (N : Int)) N
    rw [show hammingWindow A true (N : Int) = _ from this, Option.some.injEq] at h
    rw [← h]
    simp

/-- C12. Entry invariant: in every manager state reachable from `initWindows` by
`getWindowByLength` calls, every stored entry satisfies
`size = floor(SamplesPerSec * seconds)` for its recorded `seconds`, `size >= 1`,
and its `window` is a buffer of exactly `size` coefficients. -/
theorem entry_invariant (A : DoubleOps α) (fts : α → α → α) (wm : windowManager α)
    (h : Reachable A fts wm) (u : windowUnit α) (hu : u ∈ wm.entries) :
    u.size = A.floor (A.mul (A.ofInt wm.SamplesPerSec) u.seconds) ∧ 1 ≤ u.size ∧
    ∃ w, u.window = some w ∧ (w.length : Int) = u.size := by
  induction h generalizing u with
  | init mem wm0 SamplesPerSec winType h =>
    have hinv := cacheInv_initWindows A mem wm0 SamplesPerSec winType h
    have hlen := entries_length _ hinv
    have hc : (initWindows A mem wm0 SamplesPerSec winType).2.windowCount = 0 := by
      unfold initWindows
      dsimp only
      split
      · rfl
      · split
        · rename_i hm
          unfold initWindows at h
          dsimp only at h
          rw [if_neg (by assumption), if_pos hm] at h
          exact absurd h (by simp)
        · rfl
    rw [hc] at hlen
    have : (initWindows A mem wm0 SamplesPerSec winType).2.entries = [] :=
      List.eq_nil_of_length_eq_zero hlen
    rw [this] at hu
    simp at hu
  | step wm hreach mem frames framerate ih =>
    have hs := getWindowByLength_served A fts mem wm frames framerate
    generalize getWindowByLength A fts mem wm frames framerate = r at hs hu ⊢
    cases hs with
    | hit v hfind => exact ih u hu
    | refused hfind => exact ih u hu
    | created w hfind hn hfull hsize hgen =>
      have hinv := cacheInv_of_reachable A fts wm hreach
      obtain ⟨hmax, arr, harr, hlen⟩ := hinv.family hn
      have h1 := hinv.count_le
      have h2 := hinv.count_nonneg
      have h3 : MAX_WINDOWS = 100 := rfl
      have hent := entries_record wm arr harr h2 (by omega) w (fts (A.ofInt frames) framerate)
        (sampleCount A fts wm.SamplesPerSec frames framerate)
      have hu' : u ∈ (wm.record w (fts (A.ofInt frames) framerate)
          (sampleCount A fts wm.SamplesPerSec frames framerate)).entries := hu
      rw [hent] at hu'
      rcases List.mem_append.1 hu' with hu' | hu'
      · exact ih u hu'
      · rw [List.mem_singleton] at hu'
        subst hu'
        have hg := generator_length A mem _ w
          (by
            rcases hgen with h | h | h | h
            · exact Or.inl h.2
            · exact Or.inr (Or.inl h.2)
            · exact Or.inr (Or.inr (Or.inl h.2))
            · exact Or.inr (Or.inr (Or.inr h.2)))
        refine ⟨rfl, ?_, w, rfl, hg.2⟩
        show 1 ≤ sampleCount A fts wm.SamplesPerSec frames framerate
        omega

/-- Instance of C12 over the reals: the entry of the 8-sample Hann window (sampling
rate 8, 60 frames at rate 60) has `size = 8 >= 1` and 8 coefficients. -/
theorem entry_invariant_witness :
    ∃ (R : DoubleOps ℝ) (u : windowUnit ℝ), R.IsReal ∧ u.size = 8 ∧ 1 ≤ u.size ∧
      ∃ w, u.window = some w ∧ (w.length : Int) = u.size :=
  DoubleOps.exists_isReal.elim fun R hR =>
    ⟨R, { window := some ((List.range 8).map
            (fun i => hannCoef R 8 (min (Int.ofNat i) (8 - 1 - Int.ofNat i)))),
          seconds := FramesToSeconds R (R.ofInt 60) 60, size := 8, frames := 0 },
      hR, rfl,
      (entry_invariant R (FramesToSeconds R) _
        (Reachable.step _ (Reachable.init true _ 8 'h' rfl) true 60 60) _
        (by rw [hann_example_state R hR]; simp [windowManager.entries])).2⟩

/-! ## Release -/

theorem freeWindows_fields (wm : windowManager α) :
    (freeWindows wm).windowCount = 0 ∧ (freeWindows wm).winType = 'n' ∧
    (freeWindows wm).SamplesPerSec = 0 ∧ (freeWindows wm).MaxWindow = 0 := by
  unfold freeWindows
  dsimp only
  by_cases hc : wm.windowCount ≠ 0
  · simp [hc]
  · have hc' : wm.windowCount = 0 := not_not.1 hc
    simp [hc']

theorem freeWindows_entries (wm : windowManager α) : (freeWindows wm).entries = [] := by
  simp [windowManager.entries, (freeWindows_fields wm).1]

theorem freeWindows_of_count_zero (wm : windowManager α) (hc : wm.windowCount = 0) :
    freeWindows wm = { wm with MaxWindow := 0, SamplesPerSec := 0, winType := 'n' } := by
  unfold freeWindows
  dsimp only
  rw [if_neg (not_not.2 hc), hc]
  cases h : wm.windowArray <;> simp

theorem freeWindows_idem (wm : windowManager α) :
    freeWindows (freeWindows wm) = freeWindows wm := by
  rw [freeWindows_of_count_zero (freeWindows wm) (freeWindows_fields wm).1]
  obtain ⟨_, h2, h3, h4⟩ := freeWindows_fields wm
  cases hf : freeWindows wm
  rw [hf] at h2 h3 h4
  simp only at h2 h3 h4
  simp [h2, h3, h4]

theorem freeWindows_eq_stages (wm : windowManager α) :
    freeWindows wm = freeWindowsFinish (freeWindowsLoop wm) := rfl

/-- The first loop of `freeWindows` sets the `window` of every stored entry to
`NULL` and leaves the other fields of the entries as they are. -/
theorem freeWindowsLoop_entries (wm : windowManager α) :
    (freeWindowsLoop wm).windowCount = wm.windowCount ∧
    (freeWindowsLoop wm).entries = wm.entries.map (fun u => { u with window := none }) := by
  refine ⟨rfl, ?_⟩
  unfold freeWindowsLoop windowManager.entries
  cases h : wm.windowArray with
  | none => simp
  | some arr =>
    simp only [Option.map_some', Option.getD_some]
    rcases Nat.lt_or_ge wm.windowCount.toNat arr.length with hlt | hge
    · exact List.take_left' (by simp [List.length_take]; omega)
    · rw [List.drop_eq_nil_of_le hge, List.append_nil, List.take_of_length_le hge,
        List.take_of_length_le (by simp; omega)]

theorem freeWindows_array_released (wm : windowManager α) (hc : wm.windowCount ≠ 0) :
    (freeWindows wm).windowArray = none := by
  unfold freeWindows
  dsimp only
  rw [if_pos hc]

/-- In a reachable manager the slots from `windowCount` on are unused: their
`window` is `NULL`. -/
theorem unused_slots_null (A : DoubleOps α) (fts : α → α → α) (wm : windowManager α)
    (h : Reachable A fts wm) (arr : List (windowUnit α)) (harr : wm.windowArray = some arr)
    (i : Nat) (u : windowUnit α) (hi : wm.windowCount.toNat ≤ i) (hu : arr[i]? = some u) :
    u.window = none := by
  induction h generalizing arr i u with
  | init mem wm0 SamplesPerSec winType h =>
    unfold initWindows at h harr
    dsimp only at h harr
    by_cases hn : winType = 'n'
    · rw [if_pos hn] at harr
      exact absurd harr (by simp)
    · rw [if_neg hn] at h harr
      by_cases hm : mem = false
      · rw [if_pos hm] at h
        exact absurd h (by simp)
      · rw [if_neg hm] at harr
        simp only [Option.some.injEq] at harr
        subst harr
        have hmem : u ∈ List.replicate MAX_WINDOWS.toNat (zeroUnit A) :=
          List.mem_iff_getElem?.2 ⟨i, hu⟩
        rw [List.eq_of_mem_replicate hmem]
        rfl
  | step wm hreach mem frames framerate ih =>
    have hs := getWindowByLength_served A fts mem wm frames framerate
    generalize getWindowByLength A fts mem wm frames framerate = r at hs harr hi
    cases hs with
    | hit v hfind => exact ih arr harr i u hi hu
    | refused hfind => exact ih arr harr i u hi hu
    | created w hfind hn hfull hsize hgen =>
      have hinv := cacheInv_of_reachable A fts wm hreach
      obtain ⟨_, arr0, harr0, _⟩ := hinv.family hn
      have h2 := hinv.count_nonneg
      simp only [windowManager.record, harr0, Option.map_some', if_pos h2,
        Option.some.injEq] at harr
      have hi' : (wm.windowCount + 1).toNat ≤ i := hi
      subst harr
      rw [List.getElem?_modify_ne _ _ (by omega)] at hu
      exact ih arr0 harr0 i u (by omega) hu

/-- C14. Release clears and is idempotent: for every manager `wm`, the first loop
of `freeWindows` sets the `window` of every stored entry to `NULL` (the
coefficients are released), and after `freeWindows(wm)` the entry list is empty
(`windowCount = 0`); when `wm` had entries the slot array itself is released
(`windowArray = NULL`), and when it had none `freeWindows` only resets
`MaxWindow`, `SamplesPerSec` and `winType`.  For a manager reached from
`initWindows` no slot that is left holds coefficients.
`freeWindows(freeWindows(wm))` is the same manager state as `freeWindows(wm)`. -/
theorem freeWindows_clears_idempotent (A : DoubleOps α) (fts : α → α → α)
    (wm : windowManager α) :
    (freeWindowsLoop wm).entries = wm.entries.map (fun u => { u with window := none }) ∧
    freeWindows wm = freeWindowsFinish (freeWindowsLoop wm) ∧
    (freeWindows wm).windowCount = 0 ∧ (freeWindows wm).entries = [] ∧
    (wm.windowCount ≠ 0 → (freeWindows wm).windowArray = none) ∧
    (wm.windowCount = 0 →
      freeWindows wm = { wm with MaxWindow := 0, SamplesPerSec := 0, winType := 'n' }) ∧
    (Reachable A fts wm → ∀ arr, (freeWindows wm).windowArray = some arr →
      ∀ u ∈ arr, u.window = none) ∧
    freeWindows (freeWindows wm) = freeWindows wm := by
  refine ⟨(freeWindowsLoop_entries wm).2, rfl, (freeWindows_fields wm).1,
    freeWindows_entries wm, freeWindows_array_released wm, freeWindows_of_count_zero wm, ?_,
    freeWindows_idem wm⟩
  intro hreach arr harr u hu
  by_cases hc : wm.windowCount = 0
  · rw [freeWindows_of_count_zero wm hc] at harr
    obtain ⟨i, hi⟩ := List.mem_iff_getElem?.1 hu
    exact unused_slots_null A fts wm hreach arr harr i u (by rw [hc]; exact Nat.zero_le i) hi
  · rw [freeWindows_array_released wm hc] at harr
    exact absurd harr (by simp)

/-- Instance of C14 over the reals: releasing the Hann manager that holds the
8-sample window leaves no slot array. -/
theorem freeWindows_clears_idempotent_witness :
    ∃ R : DoubleOps ℝ, R.IsReal ∧
      (freeWindows (getWindowByLength R (FramesToSeconds R) true
        (initWindows R true
          { windowArray := none, windowCount := 0, MaxWindow := 0, SamplesPerSec := 0,
            winType := 'n' } 8 'h').2 60 60).2).windowArray = none :=
  DoubleOps.exists_isReal.elim fun R hR =>
    ⟨R, hR,
      (freeWindows_clears_idempotent R (FramesToSeconds R)
        (getWindowByLength R (FramesToSeconds R) true
          (initWindows R true
            { windowArray := none, windowCount := 0, MaxWindow := 0, SamplesPerSec := 0,
              winType := 'n' } 8 'h').2 60 60).2).2.2.2.2.1
        (by rw [hann_example_state R hR]; exact one_ne_zero)⟩

theorem getWindowByLength_after_free (A : DoubleOps α) (fts : α → α → α) (mem : Bool)
    (wm : windowManager α) (frames : Int) (framerate : α) :
    getWindowByLength A fts mem (freeWindows wm) frames framerate = (none, freeWindows wm) := by
  have hfind : (freeWindows wm).entries.find?
      (fun u => decide (sampleCount A fts (freeWindows wm).SamplesPerSec frames framerate
        = u.size)) = none := by
    rw [freeWindows_entries]
    rfl
  rw [getWindowByLength_miss A fts mem _ frames framerate hfind]
  unfold CreateWindow
  rw [if_pos (freeWindows_fields wm).2.1]

/-- C13 (as amended). Release then reuse: for every manager `wm` reached from
`initWindows` (any family, any sampling rate) by `getWindowByLength` calls and
every request, `getWindowByLength` applied to the manager left by
`freeWindows(wm)` returns no window at all, hence no coefficient sequence stored
before the release, and leaves that manager unchanged with an empty entry list:
`freeWindows` resets `winType` to `'n'` and `SamplesPerSec` to 0, so the released
manager behaves as one freshly produced by `initWindows` with family `'n'` (same
result, same empty entry list), whatever family and rate it had before. -/
theorem release_then_reuse_inert (A : DoubleOps α) (fts : α → α → α) (wm : windowManager α)
    (h : Reachable A fts wm) (mem : Bool) (frames : Int) (framerate : α) :
    getWindowByLength A fts mem (freeWindows wm) frames framerate = (none, freeWindows wm) ∧
    (freeWindows wm).entries = [] ∧
    (freeWindows wm).winType = 'n' ∧ (freeWindows wm).SamplesPerSec = 0 ∧
    (∀ (mem0 : Bool) (wm0 : windowManager α) (SamplesPerSec : Int),
      (getWindowByLength A fts mem (initWindows A mem0 wm0 SamplesPerSec 'n').2
        frames framerate).1 = none ∧
      (getWindowByLength A fts mem (initWindows A mem0 wm0 SamplesPerSec 'n').2
        frames framerate).2.entries = []) := by
  have _ := h
  refine ⟨getWindowByLength_after_free A fts mem wm frames framerate, freeWindows_entries wm,
    (freeWindows_fields wm).2.1, (freeWindows_fields wm).2.2.1, ?_⟩
  intro mem0 wm0 sps
  have hr : Reachable A fts (initWindows A mem0 wm0 sps 'n').2 :=
    Reachable.init mem0 wm0 sps 'n' rfl
  have hw : (initWindows A mem0 wm0 sps 'n').2.winType = 'n' := rfl
  have hc : (initWindows A mem0 wm0 sps 'n').2.windowCount = 0 := rfl
  have hent : (initWindows A mem0 wm0 sps 'n').2.entries = [] := by
    simp [windowManager.entries, hc]
  have hfind : (initWindows A mem0 wm0 sps 'n').2.entries.find?
      (fun u => decide (sampleCount A fts (initWindows A mem0 wm0 sps 'n').2.SamplesPerSec
        frames framerate = u.size)) = none := by
    rw [hent]
    rfl
  rw [getWindowByLength_miss A fts mem _ frames framerate hfind]
  unfold CreateWindow
  rw [if_pos hw]
  exact ⟨rfl, hent⟩

/-- Instance of C13 (as amended) over the reals: a Hann manager (sampling rate 8)
that served one request, once released, serves nothing. -/
theorem release_then_reuse_inert_witness :
    ∃ R : DoubleOps ℝ, R.IsReal ∧
      getWindowByLength R (FramesToSeconds R) true
        (freeWindows (getWindowByLength R (FramesToSeconds R) true
          (initWindows R true
            { windowArray := none, windowCount := 0, MaxWindow := 0, SamplesPerSec := 0,
              winType := 'n' } 8 'h').2 60 60).2) 60 60
      = (none,
        freeWindows (getWindowByLength R (FramesToSeconds R) true
          (initWindows R true
            { windowArray := none, windowCount := 0, MaxWindow := 0, SamplesPerSec := 0,
              winType := 'n' } 8 'h').2 60 60).2) :=
  DoubleOps.exists_isReal.elim fun R hR =>
    ⟨R, hR, (release_then_reuse_inert R (FramesToSeconds R) _
      (Reachable.step _ (Reachable.init true _ 8 'h' rfl) true 60 60) true 60 60).1⟩

/-- C13 fails as stated: over the reals, take the Hann manager of sampling rate 8
that served a request of 60 frames at rate 60, and release it.  The same request
on the released manager returns no window, while on a manager freshly produced by
`initWindows` with the same family `'h'` and rate 8 it returns a window. -/
theorem release_then_reuse_counterexample :
    ∃ R : DoubleOps ℝ, R.IsReal ∧
      (getWindowByLength R (FramesToSeconds R) true
        (freeWindows (getWindowByLength R (FramesToSeconds R) true
          (initWindows R true
            { windowArray := none, windowCount := 0, MaxWindow := 0, SamplesPerSec := 0,
              winType := 'n' } 8 'h').2 60 60).2) 60 60).1 = none ∧
      (getWindowByLength R (FramesToSeconds R) true
        (initWindows R true
          { windowArray := none, windowCount := 0, MaxWindow := 0, SamplesPerSec := 0,
            winType := 'n' } 8 'h').2 60 60).1 ≠ none ∧
      (getWindowByLength R (FramesToSeconds R) true
        (freeWindows (getWindowByLength R (FramesToSeconds R) true
          (initWindows R true
            { windowArray := none, windowCount := 0, MaxWindow := 0, SamplesPerSec := 0,
              winType := 'n' } 8 'h').2 60 60).2) 60 60).1
        ≠ (getWindowByLength R (FramesToSeconds R) true
          (initWindows R true
            { windowArray := none, windowCount := 0, MaxWindow := 0, SamplesPerSec := 0,
              winType := 'n' } 8 'h').2 60 60).1 :=
  DoubleOps.exists_isReal.elim fun R hR => by
    have h1 := getWindowByLength_after_free R (FramesToSeconds R) true
      (getWindowByLength R (FramesToSeconds R) true
        (initWindows R true
          { windowArray := none, windowCount := 0, MaxWindow := 0, SamplesPerSec := 0,
            winType := 'n' } 8 'h').2 60 60).2 60 60
    have h2 := hann_example_state R hR
    refine ⟨R, hR, by rw [h1], by rw [h2]; simp, by rw [h1, h2]; simp⟩

/-! ## Hann and Hamming over the reals -/

theorem hannCoef_mirror (R : DoubleOps ℝ) (hR : R.IsReal) (N i : Nat) :
    hannCoef R (N : Int) ((N : Int) - 1 - (i : Int)) = hannCoef R (N : Int) (i : Int) := by
  rw [hannCoef_real R hR, hannCoef_real R hR]
  have hN : ((N : Int) : ℝ) + 1 ≠ 0 := by
    have : (0 : ℝ) ≤ ((N : Int) : ℝ) := by exact_mod_cast Nat.zero_le N
    linarith
  have harg : 2 * Real.pi * ((((N : Int) - 1 - (i : Int) : Int) : ℝ) + 1) / (((N : Int) : ℝ) + 1)
      = 2 * Real.pi - 2 * Real.pi * ((((i : Int)) : ℝ) + 1) / (((N : Int) : ℝ) + 1) := by
    push_cast
    field_simp
    ring
  rw [harg, Real.cos_two_pi_sub]

theorem hammingCoef_mirror (R : DoubleOps ℝ) (hR : R.IsReal) (N i : Nat) (hN : 2 ≤ N) :
    hammingCoef R (N : Int) ((N : Int) - 1 - (i : Int)) = hammingCoef R (N : Int) (i : Int) := by
  rw [hammingCoef_real R hR, hammingCoef_real R hR]
  have hN' : ((N : Int) : ℝ) - 1 ≠ 0 := by
    have : (2 : ℝ) ≤ ((N : Int) : ℝ) := by exact_mod_cast hN
    linarith
  have harg : 2 * Real.pi * ((((N : Int) - 1 - (i : Int) : Int) : ℝ)) / (((N : Int) : ℝ) - 1)
      = 2 * Real.pi - 2 * Real.pi * ((((i : Int)) : ℝ)) / (((N : Int) : ℝ) - 1) := by
    push_cast at hN' ⊢
    field_simp
    ring
  rw [harg, Real.cos_two_pi_sub]

theorem coef_min_of_mirror (coef : Int → α) (N i : Nat)
    (h : coef ((N : Int) - 1 - (i : Int)) = coef (i : Int)) :
    coef (min (Int.ofNat i) ((N : Int) - 1 - Int.ofNat i)) = coef (i : Int) := by
  rcases le_total (Int.ofNat i) ((N : Int) - 1 - Int.ofNat i) with hle | hle
  · rw [min_eq_left hle]; rfl
  · rw [min_eq_right hle]; exact h

/-- The one-loop generators as one list: cell `i` is the formula at `i`. -/
theorem direct_cells_eq (A : DoubleOps α) (coef : Int → α) (N : Nat) :
    ((calloc A true (N : Int)).map
        fun w => forLoop 0 (N : Int) (fun i w => w.store i (coef i)) w).map Buffer.cells
      = some ((List.range N).map (fun i => coef (Int.ofNat i))) := by
  rw [calloc_true]
  have hf := fill_spec coef { cells := List.replicate N (A.ofInt 0), stores := [] } N
  rw [Option.map_some', Option.map_some', Option.some.injEq]
  apply List.ext_getElem?
  intro i
  by_cases hi : i < N
  · rw [hf.filled i hi (by simpa using hi), List.getElem?_map, List.getElem?_range hi]
    rfl
  · rw [List.getElem?_eq_none (by rw [hf.length]; simp; omega),
      List.getElem?_eq_none (by simp; omega)]

theorem hannWindow_eq_direct (R : DoubleOps ℝ) (hR : R.IsReal) (N : Nat) :
    hannWindow R true (N : Int) = hannDirect R true (N : Int) ∧
    hannWindow R true (N : Int)
      = some ((List.range N).map (fun i => hannCoef R (N : Int) (Int.ofNat i))) := by
  have h1 := mirrored_cells_eq R (hannCoef R (N : Int)) N
  have h2 := direct_cells_eq R (hannCoef R (N : Int)) N
  have h3 : (List.range N).map
      (fun i => hannCoef R (N : Int) (min (Int.ofNat i) ((N : Int) - 1 - Int.ofNat i)))
      = (List.range N).map (fun i => hannCoef R (N : Int) (Int.ofNat i)) := by
    apply List.map_congr_left
    intro i _
    exact coef_min_of_mirror _ N i (hannCoef_mirror R hR N i)
  rw [h3] at h1
  exact ⟨(show hannWindow R true (N : Int) = _ from h1).trans
    (show hannDirect R true (N : Int) = _ from h2).symm, h1⟩

theorem hammingWindow_eq_direct (R : DoubleOps ℝ) (hR : R.IsReal) (N : Nat) (hN : 2 ≤ N) :
    hammingWindow R true (N : Int) = hammingDirect R true (N : Int) ∧
    hammingWindow R true (N : Int)
      = some ((List.range N).map (fun i => hammingCoef R (N : Int) (Int.ofNat i))) := by
  have h1 := mirrored_cells_eq R (hammingCoef R (N : Int)) N
  have h2 := direct_cells_eq R (hammingCoef R (N : Int)) N
  have h3 : (List.range N).map
      (fun i => hammingCoef R (N : Int) (min (Int.ofNat i) ((N : Int) - 1 - Int.ofNat i)))
      = (List.range N).map (fun i => hammingCoef R (N : Int) (Int.ofNat i)) := by
    apply List.map_congr_left
    intro i _
    exact coef_min_of_mirror _ N i (hammingCoef_mirror R hR N i hN)
  rw [h3] at h1
  exact ⟨(show hammingWindow R true (N : Int) = _ from h1).trans
    (show hammingDirect R true (N : Int) = _ from h2).symm, h1⟩

/-- C18. Mirroring agrees with direct evaluation (real-number reading): for
`hannWindow` with every `N >= 1` and for `hammingWindow` with every `N >= 2`, the
half-and-mirror construction returns the same list as the naive one-loop
generator, and at every index `i < N` (the mirrored second half included) the
coefficient is the closed-form value at `i` itself:
`hannWindow(N)[i] = 0.5*(1 - cos(2*pi*(i+1)/(N+1)))` and
`hammingWindow(N)[i] = 0.54 - 0.46*cos(2*pi*i/(N-1))`. -/
theorem mirroring_agrees_with_direct (R : DoubleOps ℝ) (hR : R.IsReal) (N i : Nat)
    (hi : i < N) :
    (1 ≤ N → ∃ w, hannWindow R true (N : Int) = some w ∧ hannDirect R true (N : Int) = some w ∧
      w.length = N ∧
      w[i]? = some (0.5 * (1 - Real.cos (2 * Real.pi * ((i : ℝ) + 1) / ((N : ℝ) + 1))))) ∧
    (2 ≤ N → ∃ w, hammingWindow R true (N : Int) = some w ∧
      hammingDirect R true (N : Int) = some w ∧ w.length = N ∧
      w[i]? = some (0.54 - 0.46 * Real.cos (2 * Real.pi * (i : ℝ) / ((N : ℝ) - 1)))) := by
  constructor
  · intro _
    obtain ⟨h1, h2⟩ := hannWindow_eq_direct R hR N
    refine ⟨_, h2, by rw [← h1, h2], by simp, ?_⟩
    rw [List.getElem?_map, List.getElem?_range hi, Option.map_some', hannCoef_real R hR]
    simp
  · intro hN
    obtain ⟨h1, h2⟩ := hammingWindow_eq_direct R hR N hN
    refine ⟨_, h2, by rw [← h1, h2], by simp, ?_⟩
    rw [List.getElem?_map, List.getElem?_range hi, Option.map_some', hammingCoef_real R hR]
    simp

/-- Instance of C18 over the reals at `N = 8`, `i = 6` (in the mirrored half). -/
theorem mirroring_agrees_with_direct_witness :
    ∃ R : DoubleOps ℝ, R.IsReal ∧
      (∃ w, hannWindow R true ((8 : Nat) : Int) = some w ∧
        hannDirect R true ((8 : Nat) : Int) = some w ∧ w.length = 8 ∧
        w[6]? = some (0.5 * (1 - Real.cos (2 * Real.pi * (((6 : Nat) : ℝ) + 1)
          / (((8 : Nat) : ℝ) + 1))))) ∧
      (∃ w, hammingWindow R true ((8 : Nat) : Int) = some w ∧
        hammingDirect R true ((8 : Nat) : Int) = some w ∧ w.length = 8 ∧
        w[6]? = some (0.54 - 0.46 * Real.cos (2 * Real.pi * ((6 : Nat) : ℝ)
          / (((8 : Nat) : ℝ) - 1)))) :=
  DoubleOps.exists_isReal.elim fun R hR =>
    ⟨R, hR, (mirroring_agrees_with_direct R hR 8 6 (by decide)).1 (by decide),
      (mirroring_agrees_with_direct R hR 8 6 (by decide)).2 (by decide)⟩

/-! ## Mirroring with the machine value of `M_PI` -/

theorem M_PI_double_lt_pi : (M_PI_double : ℝ) < Real.pi := by
  have h := Real.pi_gt_d20
  have : (M_PI_double : ℝ) < 3.14159265358979323846 := by
    rw [M_PI_double]
    norm_num
  linarith

theorem M_PI_double_gt_three : (3 : ℝ) < (M_PI_double : ℝ) := by
  rw [M_PI_double]
  norm_num

/-- With `p` the machine value of `M_PI`, `cos(2p/3)` and `cos(4p/3)` differ: the
mirror identity `cos(2π - x) = cos x` needs the exact π. -/
theorem cos_machine_pi_thirds :
    Real.cos (2 * (M_PI_double : ℝ) / 3) ≠ Real.cos (4 * (M_PI_double : ℝ) / 3) := by
  have hlt := M_PI_double_lt_pi
  have hgt := M_PI_double_gt_three
  have hpi := Real.pi_pos
  have hpi4 := Real.pi_le_four
  intro h
  have h2 : Real.cos (4 * (M_PI_double : ℝ) / 3)
      = Real.cos (2 * Real.pi - 4 * (M_PI_double : ℝ) / 3) := by
    rw [Real.cos_two_pi_sub]
  rw [h2] at h
  have hinj := Real.injOn_cos
    (show 2 * (M_PI_double : ℝ) / 3 ∈ Set.Icc 0 Real.pi from ⟨by linarith, by linarith⟩)
    (show 2 * Real.pi - 4 * (M_PI_double : ℝ) / 3 ∈ Set.Icc 0 Real.pi from
      ⟨by linarith, by linarith⟩) h
  linarith

theorem DoubleOps.exists_isExactWithMachinePi : ∃ A : DoubleOps ℝ, A.IsExactWithMachinePi :=
  ⟨{ ofInt := fun z => (z : ℝ)
     lit := fun m e => (m : ℝ) / 10 ^ e
     pi := (M_PI_double : ℝ)
     add := fun x y => x + y
     sub := fun x y => x - y
     mul := fun x y => x * y
     div := fun x y => x / y
     cos := Real.cos
     acos := Real.arccos
     cosh := Real.cosh
     acosh := fun x => Real.arsinh (Real.sqrt (x ^ 2 - 1))
     pow := fun x y => x ^ y
     fabs := fun x => |x|
     ge := fun x y => decide (y ≤ x)
     gt := fun x y => decide (y < x)
     le := fun x y => decide (x ≤ y)
     floor := fun x => ⌊x⌋
     toFloat := fun x => x
     divf := fun x y => x / y },
   { ofInt := fun _ => rfl
     lit := fun _ _ => rfl
     pi := rfl
     add := fun _ _ => rfl
     sub := fun _ _ => rfl
     mul := fun _ _ => rfl
     div := fun _ _ => rfl
     cos := fun _ => rfl }⟩

/-- With the machine value of `M_PI` and otherwise exact operations, the Hann
formula at the indices 0 and 1 of length 2 gives two different values, and so
does the Hamming formula at the indices 1 and 2 of length 4. -/
theorem coef_machine_pi_ne (A : DoubleOps ℝ) (hA : A.IsExactWithMachinePi) :
    hannCoef A 2 0 ≠ hannCoef A 2 1 ∧ hammingCoef A 4 1 ≠ hammingCoef A 4 2 := by
  have hc := cos_machine_pi_thirds
  constructor
  · simp only [hannCoef, hA.sub, hA.mul, hA.div, hA.cos, hA.lit, hA.ofInt, hA.pi]
    intro h
    apply hc
    have e1 : (2 : ℝ) * (M_PI_double : ℝ) * ((0 + 1 : Int) : ℝ) / ((2 + 1 : Int) : ℝ)
        = 2 * (M_PI_double : ℝ) / 3 := by push_cast; ring
    have e2 : (2 : ℝ) * (M_PI_double : ℝ) * ((1 + 1 : Int) : ℝ) / ((2 + 1 : Int) : ℝ)
        = 4 * (M_PI_double : ℝ) / 3 := by push_cast; ring
    norm_num at h
    rw [← e1, ← e2]
    norm_num
    linarith
  · simp only [hammingCoef, hA.sub, hA.mul, hA.div, hA.cos, hA.lit, hA.ofInt, hA.pi]
    intro h
    apply hc
    norm_num at h
    have e2 : (2 : ℝ) * (M_PI_double : ℝ) * 2 / 3 = 4 * (M_PI_double : ℝ) / 3 := by ring
    rw [← e2]
    linarith

/-- Counterexample to C18 as stated for the arithmetic of the machine: with `M_PI`
the `double` constant (every other operation exact), `hannWindow(2)` holds at the
mirrored index 1 the closed-form value of index 0, which differs from the
closed-form value at index 1 stored by the one-loop generator; likewise
`hammingWindow(4)` at index 2.  (On machine doubles the cells are
`0.74999999999999989` against `0.75000000000000022`, and
`0.76999999999999991` against `0.77000000000000024`.) -/
theorem mirroring_agrees_with_direct_counterexample :
    ∃ A : DoubleOps ℝ, A.IsExactWithMachinePi ∧
      (∃ w d, hannWindow A true ((2 : Nat) : Int) = some w ∧
        hannDirect A true ((2 : Nat) : Int) = some d ∧
        w[1]? = some (hannCoef A 2 0) ∧ d[1]? = some (hannCoef A 2 1) ∧ w[1]? ≠ d[1]?) ∧
      (∃ w d, hammingWindow A true ((4 : Nat) : Int) = some w ∧
        hammingDirect A true ((4 : Nat) : Int) = some d ∧
        w[2]? = some (hammingCoef A 4 1) ∧ d[2]? = some (hammingCoef A 4 2) ∧ w[2]? ≠ d[2]?) := by
  obtain ⟨A, hA⟩ := DoubleOps.exists_isExactWithMachinePi
  obtain ⟨h1, h2⟩ := coef_machine_pi_ne A hA
  refine ⟨A, hA, ⟨_, _, mirrored_cells_eq A (hannCoef A ((2 : Nat) : Int)) 2,
      direct_cells_eq A (hannCoef A ((2 : Nat) : Int)) 2, ?_, ?_, ?_⟩,
    ⟨_, _, mirrored_cells_eq A (hammingCoef A ((4 : Nat) : Int)) 4,
      direct_cells_eq A (hammingCoef A ((4 : Nat) : Int)) 4, ?_, ?_, ?_⟩⟩
  · rfl
  · rfl
  · intro h
    exact h1 (Option.some.inj h)
  · rfl
  · rfl
  · intro h
    exact h2 (Option.some.inj h)

theorem hannCoef_nonneg (R : DoubleOps ℝ) (hR : R.IsReal) (n k : Int) : 0 ≤ hannCoef R n k := by
  rw [hannCoef_real R hR]
  have := Real.cos_le_one (2 * Real.pi * ((k : ℝ) + 1) / ((n : ℝ) + 1))
  linarith

theorem hannCoef_first_strict (R : DoubleOps ℝ) (hR : R.IsReal) (N : Nat) (hN : 1 < N) :
    0 < hannCoef R (N : Int) 0 ∧ hannCoef R (N : Int) 0 < 1 := by
  rw [hannCoef_real R hR]
  have hpi := Real.pi_pos
  have hN' : (2 : ℝ) ≤ (N : ℝ) := by exact_mod_cast hN
  have hden : (0 : ℝ) < (N : ℝ) + 1 := by linarith
  have harg : 2 * Real.pi * ((((0 : Int)) : ℝ) + 1) / ((((N : Int)) : ℝ) + 1)
      = 2 * Real.pi / ((N : ℝ) + 1) := by
    push_cast
    ring
  rw [harg]
  have hpos : 0 < 2 * Real.pi / ((N : ℝ) + 1) := by positivity
  have hlt : 2 * Real.pi / ((N : ℝ) + 1) < Real.pi := by
    rw [div_lt_iff₀ hden]
    nlinarith
  have h1 : Real.cos (2 * Real.pi / ((N : ℝ) + 1)) < 1 := by
    have := Real.cos_lt_cos_of_nonneg_of_le_pi (le_refl 0) hlt.le hpos
    rwa [Real.cos_zero] at this
  have h2 : -1 < Real.cos (2 * Real.pi / ((N : ℝ) + 1)) := by
    have := Real.cos_lt_cos_of_nonneg_of_le_pi hpos.le (le_refl Real.pi) hlt
    rwa [Real.cos_pi] at this
  constructor <;> linarith

theorem list_sum_bounds (l : List ℝ) (h0 : ∀ x ∈ l, 0 ≤ x) (h1 : ∀ x ∈ l, x ≤ 1) :
    0 ≤ l.sum ∧ l.sum ≤ (l.length : ℝ) := by
  induction l with
  | nil => simp
  | cons a t ih =>
    have ha0 := h0 a (List.mem_cons_self a t)
    have ha1 := h1 a (List.mem_cons_self a t)
    obtain ⟨i0, i1⟩ := ih (fun x hx => h0 x (List.mem_cons_of_mem a hx))
      (fun x hx => h1 x (List.mem_cons_of_mem a hx))
    simp only [List.sum_cons, List.length_cons]
    push_cast
    constructor <;> linarith

/-- The summation loop of `CalculateCorrectionFactor` over a buffer of `N` reals
computes the sum of the list. -/
theorem sum_loop_eq (R : DoubleOps ℝ) (hR : R.IsReal) (w : List ℝ) :
    forLoop 0 (w.length : Int) (fun i sum => R.add sum (w.getD i.toNat (R.ofInt 0))) (R.ofInt 0)
      = w.sum := by
  have key := forLoop_invariant (fun j (s : ℝ) => j ≤ w.length → s = (w.take j).sum) 0
    (fun i sum => R.add sum (w.getD i.toNat (R.ofInt 0))) (R.ofInt 0) w.length
    (by intro _; simp [hR.ofInt])
    (by
      intro j t hj ht _
      show R.add t (w.getD ((0 : Int) + (j : Int)).toNat (R.ofInt 0)) = _
      rw [ht (Nat.le_of_lt hj), hR.add, List.sum_take_succ w j hj]
      simp [List.getD_eq_getElem?_getD, List.getElem?_eq_getElem hj])
  simpa using key (le_refl _)

/-- C15. Hann window sum bounds (real-number reading): for every `N > 1`, the sum
of the `N` coefficients of `hannWindow(N)` is strictly greater than 0 and strictly
less than `N`, so the energy factor `N / sum` is greater than 1; the summation
loop of `CalculateCorrectionFactor` over that window computes this sum. -/
theorem hann_sum_bounds (R : DoubleOps ℝ) (hR : R.IsReal) (N : Nat) (hN : 1 < N) :
    ∃ w, hannWindow R true (N : Int) = some w ∧ w.length = N ∧
      0 < w.sum ∧ w.sum < (N : ℝ) ∧ 1 < (N : ℝ) / w.sum ∧
      forLoop 0 (N : Int) (fun i sum => R.add sum (w.getD i.toNat (R.ofInt 0))) (R.ofInt 0)
        = w.sum := by
  obtain ⟨_, hw⟩ := hannWindow_eq_direct R hR N
  obtain ⟨M, rfl⟩ : ∃ M, N = M + 1 := ⟨N - 1, by omega⟩
  have hlen : ((List.range (M + 1)).map
      (fun i => hannCoef R ((M + 1 : Nat) : Int) (Int.ofNat i))).length = M + 1 := by simp
  refine ⟨_, hw, hlen, ?_⟩
  have hsplit : (List.range (M + 1)).map
      (fun i => hannCoef R ((M + 1 : Nat) : Int) (Int.ofNat i))
      = hannCoef R ((M + 1 : Nat) : Int) 0
        :: (List.range M).map (fun i => hannCoef R ((M + 1 : Nat) : Int) (Int.ofNat (i + 1))) := by
    rw [List.range_succ_eq_map, List.map_cons, List.map_map]
    rfl
  obtain ⟨hf0, hf1⟩ := hannCoef_first_strict R hR (M + 1) hN
  obtain ⟨ht0, ht1⟩ := list_sum_bounds
    ((List.range M).map (fun i => hannCoef R ((M + 1 : Nat) : Int) (Int.ofNat (i + 1))))
    (by
      intro x hx
      obtain ⟨i, _, rfl⟩ := List.mem_map.1 hx
      exact hannCoef_nonneg R hR _ _)
    (by
      intro x hx
      obtain ⟨i, _, rfl⟩ := List.mem_map.1 hx
      exact hannCoef_le_one R hR _ _)
  rw [List.length_map, List.length_range] at ht1
  have hs0 : 0 < ((List.range (M + 1)).map
      (fun i => hannCoef R ((M + 1 : Nat) : Int) (Int.ofNat i))).sum := by
    rw [hsplit, List.sum_cons]
    linarith
  have hs1 : ((List.range (M + 1)).map
      (fun i => hannCoef R ((M + 1 : Nat) : Int) (Int.ofNat i))).sum < ((M + 1 : Nat) : ℝ) := by
    have hc : ((M + 1 : Nat) : ℝ) = (M : ℝ) + 1 := by push_cast; ring
    rw [hsplit, List.sum_cons, hc]
    linarith
  refine ⟨hs0, hs1, ?_, ?_⟩
  · rw [one_lt_div hs0]
    exact hs1
  · have := sum_loop_eq R hR ((List.range (M + 1)).map
      (fun i => hannCoef R ((M + 1 : Nat) : Int) (Int.ofNat i)))
    rw [hlen] at this
    exact this

/-- Instance of C15 over the reals at `N = 8`. -/
theorem hann_sum_bounds_witness :
    ∃ R : DoubleOps ℝ, R.IsReal ∧ ∃ w, hannWindow R true ((8 : Nat) : Int) = some w ∧
      w.length = 8 ∧ 0 < w.sum ∧ w.sum < ((8 : Nat) : ℝ) ∧ 1 < ((8 : Nat) : ℝ) / w.sum ∧
      forLoop 0 ((8 : Nat) : Int)
        (fun i sum => R.add sum (w.getD i.toNat (R.ofInt 0))) (R.ofInt 0) = w.sum :=
  DoubleOps.exists_isReal.elim fun R hR => ⟨R, hR, hann_sum_bounds R hR 8 (by decide)⟩

/-! ## The Dolph-Chebyshev window -/

theorem chebyM_real (R : DoubleOps ℝ) (hR : R.IsReal) (N : Nat) (hN : 1 ≤ N) :
    (N % 2 = 0 → chebyM R (N : Int) = ((N / 2 : Nat) : ℝ) - 1 / 2) ∧
    (N % 2 = 1 → chebyM R (N : Int) = ((N / 2 : Nat) : ℝ)) := by
  have hdiv : ((N : Int) - 1).tdiv 2 = (((N - 1) / 2 : Nat) : Int) := by
    rw [show (2 : Int) = ((2 : Nat) : Int) from rfl,
      show (N : Int) - 1 = ((N - 1 : Nat) : Int) by omega, ← Int.ofNat_tdiv]
  have hmod : (N : Int).tmod 2 = ((N % 2 : Nat) : Int) := by
    rw [show (2 : Int) = ((2 : Nat) : Int) from rfl, ← Int.ofNat_tmod]
  constructor
  · intro he
    have h1 : (N - 1) / 2 + 1 = N / 2 := by omega
    unfold chebyM
    rw [hmod, he, if_pos (by rfl), hdiv, hR.add, hR.ofInt, hR.lit, Int.cast_natCast, ← h1]
    push_cast
    norm_num
    ring
  · intro ho
    have h1 : (N - 1) / 2 = N / 2 := by omega
    unfold chebyM
    rw [hmod, ho, if_neg (by decide), hdiv, hR.ofInt, Int.cast_natCast, h1]

/-- The real-number arithmetic with `pow` the real power: used to exhibit an
attenuation whose coefficients are positive. -/
theorem DoubleOps.exists_isReal_pow :
    ∃ R : DoubleOps ℝ, R.IsReal ∧ ∀ x y : ℝ, R.pow x y = x ^ y :=
  ⟨{ ofInt := fun z => (z : ℝ)
     lit := fun m e => (m : ℝ) / 10 ^ e
     pi := Real.pi
     add := fun x y => x + y
     sub := fun x y => x - y
     mul := fun x y => x * y
     div := fun x y => x / y
     cos := Real.cos
     acos := Real.arccos
     cosh := Real.cosh
     acosh := fun x => Real.arsinh (Real.sqrt (x ^ 2 - 1))
     pow := fun x y => x ^ y
     fabs := fun x => |x|
     ge := fun x y => decide (y ≤ x)
     gt := fun x y => decide (y < x)
     le := fun x y => decide (x ≤ y)
     floor := fun x => ⌊x⌋
     toFloat := fun x => x
     divf := fun x y => x / y },
   { ofInt := fun _ => rfl
     lit := fun _ _ => rfl
     pi := rfl
     add := fun _ _ => rfl
     sub := fun _ _ => rfl
     mul := fun _ _ => rfl
     div := fun _ _ => rfl
     cos := fun _ => rfl
     fabs := fun _ => rfl
     ge := fun _ _ => by simp
     gt := fun _ _ => by simp
     le := fun _ _ => by simp
     floor := fun _ => rfl },
   fun _ _ => rfl⟩

/-- For `N = 2` the inner loop of `cheby_win` does not run (`M = 0.5`), so every
un-normalised coefficient is `tg = 10^(atten/20) > 0`. -/
theorem chebyCoef_two_pos (R : DoubleOps ℝ) (hR : R.IsReal)
    (hpow : ∀ x y : ℝ, R.pow x y = x ^ y) (atten : ℝ) :
    0 < chebyCoef R ((2 : Nat) : Int) atten ((0 : Nat) : Int) := by
  have hM := (chebyM_real R hR 2 (by decide)).1 (by decide)
  have hsum : ∀ n, chebySum R ((2 : Nat) : Int) atten n = 0 := by
    intro n
    have hle : ¬ R.le (R.ofInt (1 + Int.ofNat 0)) (chebyM R ((2 : Nat) : Int)) = true := by
      rw [hR.le, hR.ofInt, hM]
      norm_num
    unfold chebySum forLoopLe
    have hl : List.range (((2 : Nat) : Int)).toNat = [0, 1] := by decide
    rw [hl, List.map_cons]
    have htw : List.takeWhile (fun i => R.le (R.ofInt i) (chebyM R ((2 : Nat) : Int)))
        ((1 + Int.ofNat 0) :: List.map (fun k => 1 + Int.ofNat k) [1]) = [] :=
      List.takeWhile_cons_of_neg hle
    rw [htw, List.foldl_nil, hR.ofInt]
    simp
  unfold chebyCoef chebyTg
  rw [hsum, hR.add, hR.mul, hpow, hR.ofInt, mul_zero, add_zero]
  apply Real.rpow_pos_of_pos
  norm_num

end MDFourier
